import Mathlib

/-!
# Change reconciliation of `drive` (src/types.go)

A shallow embedding of `types.go`: file descriptors live in a heap and are
referred to by pointers (`none` is Go's `nil`), the functions thread a `World`
(heap, the paths opened so far, the lines printed so far) and return `none`
where the Go code would stop with a nil-pointer or index run-time error.
-/

namespace Drive

/-! ## Constants -/

/-- Operation label `OpNone` (iota 0). -/
def OpNone : Nat := 0
/-- Operation label `OpAdd` (iota 1). -/
def OpAdd : Nat := 1
/-- Operation label `OpDelete` (iota 2). -/
def OpDelete : Nat := 2
/-- Operation label `OpMod` (iota 3). -/
def OpMod : Nat := 3

/-- Difference bit `DifferNone`, which is `1 << 0` in the source. -/
def DifferNone : Nat := 1 <<< 0
/-- Difference bit `DifferDirType`, `1 << 1`. -/
def DifferDirType : Nat := 1 <<< 1
/-- Difference bit `DifferMd5Checksum`, `1 << 2`. -/
def DifferMd5Checksum : Nat := 1 <<< 2
/-- Difference bit `DifferModTime`, `1 << 3`. -/
def DifferModTime : Nat := 1 <<< 3
/-- Difference bit `DifferSize`, `1 << 4`. -/
def DifferSize : Nat := 1 <<< 4

/-- The folder media type of the remote service. -/
def DriveFolderMimeType : String := "application/vnd.google-apps.folder"

/-- The large-file threshold `int64(1024 * 1024 * 400)`. -/
def BigFileSize : Int := 1024 * 1024 * 400

/-- The map `opPrecedence`; a key that is not in a Go map reads as `0`. -/
def opPrecedence (op : Nat) : Nat :=
  if op = OpNone then 0
  else if op = OpDelete then 1
  else if op = OpAdd then 2
  else if op = OpMod then 3
  else 0

/-! ## Data model -/

/-- The struct `File`. `ModTime` is the instant of the `time.Time` value (what
`Time.Equal` compares); `ExportLinks` and `UserPermission` are carried through
by the engine and never read by the functions embedded here, so they are left
out. -/
structure File where
  BlobAt : String
  Id : String
  IsDir : Bool
  Md5Checksum : String
  MimeType : String
  ModTime : Int
  Name : String
  Size : Int
  Etag : String
  Shared : Bool
  CacheChecksum : Bool
  deriving DecidableEq, Repr

/-- The struct `Change`; `Dest` and `Src` are `*File`: an address in the heap of
descriptors, or `none` for `nil`. -/
structure Change where
  Dest : Option Nat
  Parent : String
  Path : String
  Src : Option Nat
  Force : Bool
  NoClobber : Bool
  deriving DecidableEq, Repr

/-- The type `ByPrecedence`, a slice of `*Change`. No function of the file writes
to a `Change`, so a pointer to one is modelled by its value, `none` being `nil`. -/
abbrev ByPrecedence := List (Option Change)

/-- What `os.Open` followed by `io.Copy` gives for a path. -/
inductive ReadResult where
  | openError
  | readError
  | content (bytes : List Nat)
  deriving DecidableEq, Repr

/-- The surroundings the functions run in, fixed during a run: the content found
at each path, the digest function `md5` of the standard library (bytes to
bytes), and the helper `prettyBytes`, which is declared in another file. -/
structure Env where
  fs : String → ReadResult
  md5sum : List Nat → List Nat
  prettyBytes : Int → String

/-- The mutable state: the heap of file descriptors, the paths handed to
`os.Open` so far and the text written by `fmt.Printf` so far. -/
structure World where
  heap : Nat → File
  opened : List String
  printed : List String

/-! ## Formatting a digest: `fmt.Sprintf("%x", h.Sum(nil))` -/

/-- One lower-case hexadecimal digit. -/
def hexDigit (n : Nat) : Char :=
  if n % 16 < 10 then Char.ofNat (48 + n % 16) else Char.ofNat (87 + n % 16)

/-- The two digits of one byte. -/
def hexByte (b : Nat) : List Char :=
  [hexDigit (b / 16), hexDigit b]

/-- The verb `%x` applied to a byte slice. -/
def hexString (bs : List Nat) : String :=
  String.mk (bs.flatMap hexByte)

/-! ## The functions of `types.go` -/

/-- The method `(self *File) sameDirType(other *File)`:
`other != nil && self.IsDir == other.IsDir`. The right operand is evaluated only
when `other` is not nil, and then reads `self`. -/
def File.sameDirType (w : World) (self other : Option Nat) : Option Bool :=
  match other with
  | none => some false
  | some o =>
    match self with
    | none => none
    | some s => some ((w.heap s).IsDir == (w.heap o).IsDir)

/-- The method `(f *File) largeFile()`: `f.Size > BigFileSize`. -/
def File.largeFile (w : World) (f : Option Nat) : Option Bool :=
  match f with
  | none => none
  | some a => some (decide ((w.heap a).Size > BigFileSize))

/-- The advisory printed before hashing a large file. -/
def largeFileWarning (env : Env) (f : File) : String :=
  "\x1b[91mmd5Checksum\x1b[00m: `" ++ f.Name ++ "` (" ++ env.prettyBytes f.Size ++
    ")\nmight take time to checksum.\n"

/-- The heap after `f.Md5Checksum = checksum` for the descriptor at `a`. -/
def storeChecksum (heap : Nat → File) (a : Nat) (checksum : String) : Nat → File :=
  fun p => if p = a then { heap a with Md5Checksum := checksum } else heap p

/-- The function `md5Checksum(f *File) string`. -/
def md5Checksum (env : Env) (f : Option Nat) (w : World) : Option (String × World) :=
  match f with
  | none => some ("", w)
  | some a =>
    if (w.heap a).IsDir then some ("", w)
    else if (w.heap a).Md5Checksum ≠ "" then some ((w.heap a).Md5Checksum, w)
    else
      match File.largeFile w (some a) with
      | none => none
      | some large =>
        let w1 : World :=
          if large then { w with printed := w.printed ++ [largeFileWarning env (w.heap a)] }
          else w
        let w2 : World := { w1 with opened := w1.opened ++ [(w1.heap a).BlobAt] }
        match env.fs (w1.heap a).BlobAt with
        | ReadResult.openError => some ("", w2)
        | ReadResult.readError => some ("", w2)
        | ReadResult.content bytes =>
          let checksum := hexString (env.md5sum bytes)
          if (w2.heap a).CacheChecksum then
            some (checksum, { w2 with heap := storeChecksum w2.heap a checksum })
          else some (checksum, w2)

/-- The function `sameFile(src, dest *File) bool`; it reads both descriptors
without a nil test. -/
def sameFile (w : World) (src dest : Option Nat) : Option Bool :=
  match src, dest with
  | some s, some d =>
    if (w.heap s).Size ≠ (w.heap d).Size ∨ ¬ ((w.heap s).ModTime = (w.heap d).ModTime) then
      some false
    else if (w.heap s).IsDir ≠ (w.heap d).IsDir then some false
    else some true
  | _, _ => none

/-- The function `checksumDiffers(mask int) bool`. -/
def checksumDiffers (mask : Nat) : Bool := (mask &&& DifferMd5Checksum) != 0

/-- The function `dirTypeDiffers(mask int) bool`. -/
def dirTypeDiffers (mask : Nat) : Bool := (mask &&& DifferDirType) != 0

/-- The function `modTimeDiffers(mask int) bool`. -/
def modTimeDiffers (mask : Nat) : Bool := (mask &&& DifferModTime) != 0

/-- The function `fileDifferences(src, dest *File) int`. -/
def fileDifferences (env : Env) (src dest : Option Nat) (w : World) : Option (Nat × World) :=
  match src, dest with
  | some s, some d =>
    let difference := DifferNone
    let difference :=
      if (w.heap s).Size ≠ (w.heap d).Size then difference ||| DifferSize else difference
    let difference :=
      if ¬ ((w.heap s).ModTime = (w.heap d).ModTime) then difference ||| DifferModTime
      else difference
    let difference :=
      if (w.heap s).IsDir ≠ (w.heap d).IsDir then difference ||| DifferDirType else difference
    match md5Checksum env (some s) w with
    | none => none
    | some (c1, w1) =>
      match md5Checksum env (some d) w1 with
      | none => none
      | some (c2, w2) =>
        if c1 ≠ c2 then some (difference ||| DifferMd5Checksum, w2) else some (difference, w2)
  | _, _ => some (DifferMd5Checksum ||| DifferSize ||| DifferModTime ||| DifferDirType, w)

/-- The function `sameFileTillChecksum(src, dest *File) bool`. -/
def sameFileTillChecksum (env : Env) (src dest : Option Nat) (w : World) :
    Option (Bool × World) :=
  match sameFile w src dest with
  | none => none
  | some false => some (false, w)
  | some true =>
    match md5Checksum env src w with
    | none => none
    | some (c1, w1) =>
      match md5Checksum env dest w1 with
      | none => none
      | some (c2, w2) => some (decide (c1 = c2), w2)

/-- The method `(c *Change) op() int`. -/
def Change.op (env : Env) (c : Option Change) (w : World) : Option (Nat × World) :=
  match c with
  | none => none
  | some c =>
    match c.Src, c.Dest with
    | none, none => some (OpNone, w)
    | some _, none => some (OpAdd, w)
    | none, some _ => some (OpDelete, w)
    | some s, some d =>
      if (w.heap s).IsDir ≠ (w.heap d).IsDir then some (OpMod, w)
      else if !(w.heap s).IsDir then
        match sameFileTillChecksum env (some s) (some d) w with
        | none => none
        | some (same, w1) => if !same then some (OpMod, w1) else some (OpNone, w1)
      else some (OpNone, w)

/-- The method `(c *Change) Op() int`. -/
def Change.Op (env : Env) (c : Option Change) (w : World) : Option (Nat × World) :=
  match c with
  | none => none
  | some ch =>
    if ch.Force then some (OpAdd, w)
    else
      match Change.op env (some ch) w with
      | none => none
      | some (op, w1) => if op ≠ OpAdd ∧ ch.NoClobber then some (OpNone, w1) else some (op, w1)

/-- The function `opToString(op int) (string, string)`. -/
def opToString (op : Nat) : String × String :=
  if op = OpAdd then ("\x1b[32m+\x1b[0m", "Addition")
  else if op = OpDelete then ("\x1b[31m-\x1b[0m", "Deletion")
  else if op = OpMod then ("\x1b[33mM\x1b[0m", "Modification")
  else ("", "")

/-- The method `(c *Change) Symbol() string`. -/
def Change.Symbol (env : Env) (c : Option Change) (w : World) : Option (String × World) :=
  match Change.Op env c w with
  | none => none
  | some (op, w1) => some ((opToString op).1, w1)

/-- The method `(cl ByPrecedence) Less(i, j int) bool`; an index outside the
slice is a run-time error. -/
def ByPrecedence.Less (env : Env) (cl : ByPrecedence) (i j : Nat) (w : World) :
    Option (Bool × World) :=
  match cl[i]? with
  | none => none
  | some none => some (false, w)
  | some (some ci) =>
    match cl[j]? with
    | none => none
    | some none => some (true, w)
    | some (some cj) =>
      match Change.Op env (some ci) w with
      | none => none
      | some (op1, w1) =>
        match Change.Op env (some cj) w1 with
        | none => none
        | some (op2, w2) => some (decide (opPrecedence op1 < opPrecedence op2), w2)

/-- The method `(cl ByPrecedence) Len() int`. -/
def ByPrecedence.Len (cl : ByPrecedence) : Nat := cl.length

/-- The method `(cl ByPrecedence) Swap(i, j int)`, giving the slice after the
exchange. -/
def ByPrecedence.Swap (cl : ByPrecedence) (i j : Nat) : Option ByPrecedence :=
  match cl[i]?, cl[j]? with
  | some ci, some cj => some ((cl.set i cj).set j ci)
  | _, _ => none

/-! ## The push command of `cmd/drive/main.go` -/

/-- The struct `drive.Options` as far as `main.go` fills it in; a field that a
composite literal leaves out has the zero value of its type. `Mounts` holds
`*config.Mount` values, which are named here by their mount point. -/
structure Options where
  Exports : List String := []
  ExportsDir : String := ""
  Force : Bool := false
  Hidden : Bool := false
  Mounts : List String := []
  NoClobber : Bool := false
  NoPrompt : Bool := false
  Path : String := ""
  Recursive : Bool := false
  Sources : List String := []
  deriving DecidableEq, Repr

/-- The struct `pushCmd`: the values its flag pointers refer to once the command
line has been parsed. -/
structure pushCmd where
  noClobber : Bool
  hidden : Bool
  force : Bool
  noPrompt : Bool
  recursive : Bool
  mountedPush : Bool
  deriving DecidableEq, Repr

/-- The value of a boolean flag registered with `fs.Bool(name, value, usage)`:
what the command line gives for `name`, or else the default. -/
def flagBool (given : List (String × Bool)) (name : String) (value : Bool) : Bool :=
  (given.lookup name).getD value

/-- The method `(cmd *pushCmd) Flags(fs)`, with the flags `given` on the command
line. -/
def pushCmd.Flags (given : List (String × Bool)) : pushCmd :=
  { noClobber := flagBool given "no-clobber" false,
    hidden := flagBool given "hidden" false,
    recursive := flagBool given "r" true,
    noPrompt := flagBool given "no-prompt" false,
    force := flagBool given "force" false,
    mountedPush := flagBool given "m" false }

/-- What the path handling around the push command gives, `none` where
`exitWithError` ends the process: `preprocessArgs` (sources and path),
`discoverContext` (path), `filepath.Abs`, `os.Getwd` (the directory and whether
it reported an error) and `config.MountPoints` (mount points and sources). -/
structure CmdEnv where
  preprocessArgs : List String → Option (List String × String)
  discoverContext : List String → Option String
  Abs : String → Option String
  Getwd : String × Bool
  MountPoints : String → String → List String → Bool → List String × List String

/-- The function `nonEmptyStrings(v []string)`. -/
def nonEmptyStrings (v : List String) : List String :=
  v.filter (fun elem => elem != "")

/-- The function `pushMounted(cmd, args)`, giving the options it hands to
`drive.New`. -/
def pushMounted (cenv : CmdEnv) (cmd : pushCmd) (args : List String) : Option Options :=
  let argc := args.length
  let split : List String × List String :=
    if !cmd.mountedPush then (args, [])
    else if argc < 2 then
      (if cenv.Getwd.2 then [cenv.Getwd.1] else [], args)
    else (args.drop (argc - 1), args.take (argc - 1))
  let contextArgs := split.1
  let rest := nonEmptyStrings split.2
  match cenv.discoverContext contextArgs with
  | none => none
  | some path =>
    match cenv.Abs path with
    | none => none
    | some contextAbsPath =>
      let path := if path = "." then "" else path
      let mounts := cenv.MountPoints path contextAbsPath rest cmd.hidden
      some { Hidden := cmd.hidden, NoPrompt := cmd.noPrompt, Recursive := cmd.recursive,
             Mounts := mounts.1, NoClobber := cmd.noClobber, Path := path,
             Sources := [] ++ mounts.2 }

/-- The method `(cmd *pushCmd) Run(args)`, giving the options it hands to
`drive.New`. -/
def pushCmd.Run (cenv : CmdEnv) (cmd : pushCmd) (args : List String) : Option Options :=
  if cmd.mountedPush then pushMounted cenv cmd args
  else
    match cenv.preprocessArgs args with
    | none => none
    | some (sources, path) =>
      some { Force := cmd.force, Hidden := cmd.hidden, NoClobber := cmd.noClobber,
             NoPrompt := cmd.noPrompt, Path := path, Recursive := cmd.recursive,
             Sources := sources }

/-! ## The sort driven by `Len`, `Less` and `Swap`

The batch is sorted through the three methods of `sort.Interface`. The
routine below is `insertionSort(data, a, b)` of Go's package `sort`, the stable
routine that `sort.Stable` runs on a block of up to twenty entries (it then
merges larger blocks); `stableSort` runs it over the whole batch. -/

/-- The inner loop `for j := i; j > a && data.Less(j, j-1); j-- { data.Swap(j, j-1) }`. -/
def insertionInner (env : Env) (a : Nat) :
    Nat → ByPrecedence → World → Option (ByPrecedence × World)
  | 0, cl, w => some (cl, w)
  | j + 1, cl, w =>
    if j + 1 > a then
      match ByPrecedence.Less env cl (j + 1) j w with
      | none => none
      | some (false, w1) => some (cl, w1)
      | some (true, w1) =>
        match ByPrecedence.Swap cl (j + 1) j with
        | none => none
        | some cl1 => insertionInner env a j cl1 w1
    else some (cl, w)

/-- The outer loop `for i := a + 1; i < b; i++`, with `n` the number of rounds
left to run. -/
def insertionOuter (env : Env) (a b : Nat) :
    Nat → Nat → ByPrecedence → World → Option (ByPrecedence × World)
  | 0, _, cl, w => some (cl, w)
  | n + 1, i, cl, w =>
    if i < b then
      match insertionInner env a i cl w with
      | none => none
      | some (cl1, w1) => insertionOuter env a b n (i + 1) cl1 w1
    else some (cl, w)

/-- The routine `insertionSort(data, a, b)`. -/
def insertionSort (env : Env) (cl : ByPrecedence) (a b : Nat) (w : World) :
    Option (ByPrecedence × World) :=
  insertionOuter env a b (b - (a + 1)) (a + 1) cl w

/-- Stable sorting of a batch with `ByPrecedence`: `insertionSort(data, 0, data.Len())`. -/
def stableSort (env : Env) (cl : ByPrecedence) (w : World) : Option (ByPrecedence × World) :=
  insertionSort env cl 0 (ByPrecedence.Len cl) w

/-! ## What the functions compute, without the state -/

/-- The string `md5Checksum` returns for `f` in world `w`. -/
def checksumOf (env : Env) (w : World) (f : Option Nat) : String :=
  match f with
  | none => ""
  | some a =>
    if (w.heap a).IsDir then ""
    else if (w.heap a).Md5Checksum ≠ "" then (w.heap a).Md5Checksum
    else
      match env.fs (w.heap a).BlobAt with
      | ReadResult.content bytes => hexString (env.md5sum bytes)
      | _ => ""

/-- The label `Change.op` returns for `c` in world `w`. -/
def preOp (env : Env) (w : World) (c : Change) : Nat :=
  match c.Src, c.Dest with
  | none, none => OpNone
  | some _, none => OpAdd
  | none, some _ => OpDelete
  | some s, some d =>
    if (w.heap s).IsDir ≠ (w.heap d).IsDir then OpMod
    else if (w.heap s).IsDir then OpNone
    else if (w.heap s).Size = (w.heap d).Size ∧ (w.heap s).ModTime = (w.heap d).ModTime ∧
        checksumOf env w (some s) = checksumOf env w (some d) then OpNone
    else OpMod

/-- The label `Change.Op` returns for `c` in world `w`. -/
def opOf (env : Env) (w : World) (c : Change) : Nat :=
  if c.Force then OpAdd
  else if preOp env w c ≠ OpAdd ∧ c.NoClobber then OpNone
  else preOp env w c

/-- The mask `fileDifferences` returns for `src` and `dest` in world `w`. -/
def differencesOf (env : Env) (w : World) (src dest : Option Nat) : Nat :=
  match src, dest with
  | some s, some d =>
    let difference := DifferNone
    let difference :=
      if (w.heap s).Size ≠ (w.heap d).Size then difference ||| DifferSize else difference
    let difference :=
      if ¬ ((w.heap s).ModTime = (w.heap d).ModTime) then difference ||| DifferModTime
      else difference
    let difference :=
      if (w.heap s).IsDir ≠ (w.heap d).IsDir then difference ||| DifferDirType else difference
    if checksumOf env w (some s) ≠ checksumOf env w (some d) then
      difference ||| DifferMd5Checksum
    else difference
  | _, _ => DifferMd5Checksum ||| DifferSize ||| DifferModTime ||| DifferDirType

/-- The mask `fileDifferences` builds for two present descriptors, from the four
comparisons it makes: sizes differ, modification times differ, directory types
differ, checksums differ. -/
def maskOf (size modTime dirType checksum : Bool) : Nat :=
  let difference := DifferNone
  let difference := if size then difference ||| DifferSize else difference
  let difference := if modTime then difference ||| DifferModTime else difference
  let difference := if dirType then difference ||| DifferDirType else difference
  if checksum then difference ||| DifferMd5Checksum else difference

/-- The rank `ByPrecedence.Less` compares: the precedence of the resolved
operation, and a rank above all of them for a nil entry. -/
def rankOf (env : Env) (w : World) (c : Option Change) : Nat :=
  match c with
  | none => 4
  | some ch => opPrecedence (opOf env w ch)

/-- One run of the inner loop of `insertionSort` on a sorted block followed by
`x`: the block is given back to front, and `x` moves left past every entry whose
key is larger than its own. -/
def insertBack {α : Type} (key : α → Nat) : List α → α → List α
  | [], x => [x]
  | y :: r, x => if key x < key y then insertBack key r x ++ [y] else (y :: r).reverse ++ [x]

/-- The outer loop of `insertionSort`: `done` is the block sorted so far, the
entries of `rest` are inserted one after the other. -/
def sortFrom {α : Type} (key : α → Nat) : List α → List α → List α
  | done, [] => done
  | done, x :: rest => sortFrom key (insertBack key done.reverse x) rest

/-- The list `insertionSort(data, 0, len)` leaves when `Less` compares keys. -/
def sortedBy {α : Type} (key : α → Nat) : List α → List α
  | [] => []
  | x :: rest => sortFrom key [x] rest

/-- The world after `md5Checksum` has warned (for a large file) and handed the
path of the descriptor at `a` to `os.Open`; the heap is the one of `w`. -/
def readWorld (env : Env) (w : World) (a : Nat) : World :=
  { heap := w.heap,
    opened := w.opened ++ [(w.heap a).BlobAt],
    printed :=
      if (w.heap a).Size > BigFileSize then w.printed ++ [largeFileWarning env (w.heap a)]
      else w.printed }

/-- World `w2` is `w1` after some checksums were cached: every descriptor is
unchanged, or it is a regular file that had no stored checksum and now stores
the digest of its readable content. Paths opened and text printed may differ. -/
def CacheExt (env : Env) (w1 w2 : World) : Prop :=
  ∀ p, w2.heap p = w1.heap p ∨
    ((w1.heap p).IsDir = false ∧ (w1.heap p).Md5Checksum = "" ∧
      ∃ bytes, env.fs (w1.heap p).BlobAt = ReadResult.content bytes ∧
        w2.heap p = { w1.heap p with Md5Checksum := hexString (env.md5sum bytes) })

/-- Calling `md5Checksum` on the descriptor at `a` cannot change the heap: it is
a directory, or stores a checksum, or is not cached, or its content cannot be
read, or its digest prints as the empty string. -/
def Settled (env : Env) (heap : Nat → File) (a : Nat) : Prop :=
  (heap a).IsDir = true ∨ (heap a).Md5Checksum ≠ "" ∨ (heap a).CacheChecksum = false ∨
    env.fs (heap a).BlobAt = ReadResult.openError ∨
    env.fs (heap a).BlobAt = ReadResult.readError ∨
    ∃ bytes, env.fs (heap a).BlobAt = ReadResult.content bytes ∧
      hexString (env.md5sum bytes) = ""

/-- The answer of `ByPrecedence.Less` for the indices `i` and `j` in world `w`,
`none` where an index is outside the batch. -/
def lessOf (env : Env) (w : World) (cl : ByPrecedence) (i j : Nat) : Option Bool :=
  match cl[i]? with
  | none => none
  | some none => some false
  | some (some ci) =>
    match cl[j]? with
    | none => none
    | some b => some (decide (rankOf env w (some ci) < rankOf env w b))

/-! ## Sample values

A small world used to run the functions on concrete inputs. -/

/-- A regular file of size 10 with stored checksum `"x"`. -/
def sampleFile : File :=
  { BlobAt := "a", Id := "", IsDir := false, Md5Checksum := "x", MimeType := "",
    ModTime := 5, Name := "a", Size := 10, Etag := "", Shared := false,
    CacheChecksum := true }

/-- Addresses 0 and 1 hold equal regular files with checksum `"x"`, 2 the same
file with checksum `"y"`, 3 a directory of the same size, 4 and 5 regular files
without a stored checksum whose content cannot be opened or read, 6 a regular
file without a stored checksum whose content is readable, 7 a directory that
carries a stored checksum, 8 a regular file on `"data"` that is not cached, and
every other address a regular file of size 11 with checksum `"z"`. -/
def sampleHeap : Nat → File := fun p =>
  if p = 0 then sampleFile
  else if p = 1 then { sampleFile with BlobAt := "b", Name := "b" }
  else if p = 2 then { sampleFile with BlobAt := "c", Name := "c", Md5Checksum := "y" }
  else if p = 3 then { sampleFile with IsDir := true, Md5Checksum := "" }
  else if p = 4 then { sampleFile with BlobAt := "gone", Md5Checksum := "" }
  else if p = 5 then { sampleFile with BlobAt := "torn", Md5Checksum := "" }
  else if p = 6 then { sampleFile with BlobAt := "data", Md5Checksum := "" }
  else if p = 7 then { sampleFile with IsDir := true, Md5Checksum := "d" }
  else if p = 8 then
    { sampleFile with BlobAt := "data", Md5Checksum := "", CacheChecksum := false }
  else { sampleFile with Size := 11, Md5Checksum := "z" }

/-- A file system in which only `"data"` can be read, and a stand-in digest of
sixteen bytes. -/
def sampleEnv : Env :=
  { fs := fun path =>
      if path = "data" then ReadResult.content [1, 2, 3]
      else if path = "torn" then ReadResult.readError
      else ReadResult.openError,
    md5sum := fun bytes => List.replicate 16 (bytes.length % 256),
    prettyBytes := fun _ => "" }

/-- The sample heap with nothing opened or printed yet. -/
def sampleWorld : World := { heap := sampleHeap, opened := [], printed := [] }

/-- A change between the descriptors at `src` and `dest` with the given flags. -/
def sampleChange (src dest : Option Nat) (force noClobber : Bool) : Change :=
  { Dest := dest, Parent := "", Path := "p", Src := src, Force := force,
    NoClobber := noClobber }

/-- Path handling that succeeds on every argument list. -/
def sampleCmdEnv : CmdEnv :=
  { preprocessArgs := fun args => some (args, "/root"),
    discoverContext := fun _ => some "ctx",
    Abs := fun path => some ("/" ++ path),
    Getwd := ("/cwd", false),
    MountPoints := fun _ _ rest _ => (rest, []) }

/-- The change `c` with its two sides exchanged. -/
def swapSides (c : Change) : Change :=
  { c with Src := c.Dest, Dest := c.Src }

/-! ## Lemmas on the checksum cache -/

theorem CacheExt.refl (env : Env) (w : World) : CacheExt env w w :=
  fun _ => Or.inl rfl

theorem CacheExt.trans {env : Env} {w1 w2 w3 : World}
    (h12 : CacheExt env w1 w2) (h23 : CacheExt env w2 w3) : CacheExt env w1 w3 := by
  intro p
  rcases h12 p with h | ⟨hd, hm, b, hb, hw⟩
  · rcases h23 p with h' | ⟨hd', hm', b', hb', hw'⟩
    · exact Or.inl (h'.trans h)
    · right
      rw [h] at hd' hm' hb' hw'
      exact ⟨hd', hm', b', hb', hw'⟩
  · rcases h23 p with h' | ⟨hd', hm', b', hb', hw'⟩
    · right
      exact ⟨hd, hm, b, hb, h'.trans hw⟩
    · right
      refine ⟨hd, hm, b, hb, ?_⟩
      rw [hw] at hb' hw'
      simp only at hb'
      rw [hb] at hb'
      cases hb'
      rw [hw']

theorem checksumOf_ext {env : Env} {w1 w2 : World} (h : CacheExt env w1 w2)
    (f : Option Nat) : checksumOf env w2 f = checksumOf env w1 f := by
  cases f with
  | none => rfl
  | some a =>
    rcases h a with h | ⟨hd, hm, b, hb, hw⟩
    · simp only [checksumOf, h]
    · simp only [checksumOf, hw, hd, hm, hb]
      by_cases hx : hexString (env.md5sum b) = ""
      · simp [hx, hb]
      · simp [hx]

theorem md5Checksum_spec (env : Env) (f : Option Nat) (w : World) :
    ∃ w', md5Checksum env f w = some (checksumOf env w f, w') ∧ CacheExt env w w' := by
  cases f with
  | none => exact ⟨w, rfl, CacheExt.refl env w⟩
  | some a =>
    by_cases hd : (w.heap a).IsDir = true
    · exact ⟨w, by simp [md5Checksum, checksumOf, hd], CacheExt.refl env w⟩
    · by_cases hm : (w.heap a).Md5Checksum = ""
      · simp only [md5Checksum, checksumOf, hd, hm, File.largeFile]
        by_cases hl : (w.heap a).Size > BigFileSize
        · cases hfs : env.fs (w.heap a).BlobAt with
          | openError => simp [hl, hfs]; exact fun _ => Or.inl rfl
          | readError => simp [hl, hfs]; exact fun _ => Or.inl rfl
          | content b =>
            by_cases hc : (w.heap a).CacheChecksum = true
            · simp [hl, hfs, hc]
              intro p
              by_cases hp : p = a
              · subst hp
                right
                simp at hd
                exact ⟨hd, hm, b, hfs, by simp [storeChecksum]⟩
              · left; simp [storeChecksum, hp]
            · simp [hl, hfs, hc]; exact fun _ => Or.inl rfl
        · cases hfs : env.fs (w.heap a).BlobAt with
          | openError => simp [hl, hfs]; exact fun _ => Or.inl rfl
          | readError => simp [hl, hfs]; exact fun _ => Or.inl rfl
          | content b =>
            by_cases hc : (w.heap a).CacheChecksum = true
            · simp [hl, hfs, hc]
              intro p
              by_cases hp : p = a
              · subst hp
                right
                simp at hd
                exact ⟨hd, hm, b, hfs, by simp [storeChecksum]⟩
              · left; simp [storeChecksum, hp]
            · simp [hl, hfs, hc]; exact fun _ => Or.inl rfl
      · exact ⟨w, by simp [md5Checksum, checksumOf, hd, hm], CacheExt.refl env w⟩

theorem sameFileTillChecksum_spec (env : Env) (s d : Nat) (w : World) :
    ∃ w', sameFileTillChecksum env (some s) (some d) w =
        some (decide ((w.heap s).Size = (w.heap d).Size ∧
          (w.heap s).ModTime = (w.heap d).ModTime ∧ (w.heap s).IsDir = (w.heap d).IsDir ∧
          checksumOf env w (some s) = checksumOf env w (some d)), w') ∧
      CacheExt env w w' := by
  by_cases hsz : (w.heap s).Size = (w.heap d).Size
  · by_cases hmt : (w.heap s).ModTime = (w.heap d).ModTime
    · by_cases hdir : (w.heap s).IsDir = (w.heap d).IsDir
      · obtain ⟨w1, h1, e1⟩ := md5Checksum_spec env (some s) w
        obtain ⟨w2, h2, e2⟩ := md5Checksum_spec env (some d) w1
        rw [checksumOf_ext e1] at h2
        refine ⟨w2, ?_, e1.trans e2⟩
        simp [sameFileTillChecksum, sameFile, hsz, hmt, hdir, h1, h2]
      · exact ⟨w, by simp [sameFileTillChecksum, sameFile, hsz, hmt, hdir], CacheExt.refl env w⟩
    · exact ⟨w, by simp [sameFileTillChecksum, sameFile, hsz, hmt], CacheExt.refl env w⟩
  · exact ⟨w, by simp [sameFileTillChecksum, sameFile, hsz], CacheExt.refl env w⟩

theorem op_spec (env : Env) (c : Change) (w : World) :
    ∃ w', Change.op env (some c) w = some (preOp env w c, w') ∧ CacheExt env w w' := by
  rcases hs : c.Src with _ | s <;> rcases hd : c.Dest with _ | d
  · exact ⟨w, by simp [Change.op, preOp, hs, hd], CacheExt.refl env w⟩
  · exact ⟨w, by simp [Change.op, preOp, hs, hd], CacheExt.refl env w⟩
  · exact ⟨w, by simp [Change.op, preOp, hs, hd], CacheExt.refl env w⟩
  · by_cases hdir : (w.heap s).IsDir = (w.heap d).IsDir
    · by_cases hsd : (w.heap s).IsDir = true
      · refine ⟨w, ?_, CacheExt.refl env w⟩
        have hdd : (w.heap d).IsDir = true := by rw [← hdir]; exact hsd
        simp [Change.op, preOp, hs, hd, hsd, hdd]
      · obtain ⟨w1, h1, e1⟩ := sameFileTillChecksum_spec env s d w
        refine ⟨w1, ?_, e1⟩
        have hsd' : (w.heap s).IsDir = false := by simpa using hsd
        have hdd : (w.heap d).IsDir = false := by rw [← hdir]; exact hsd'
        simp only [Change.op, preOp, hs, hd, h1, hsd', hdd]
        by_cases hq : (w.heap s).Size = (w.heap d).Size ∧
            (w.heap s).ModTime = (w.heap d).ModTime ∧
            checksumOf env w (some s) = checksumOf env w (some d)
        · obtain ⟨q1, q2, q3⟩ := hq
          simp [q1, q2, q3]
        · have hq' : ¬ ((w.heap s).Size = (w.heap d).Size ∧
              (w.heap s).ModTime = (w.heap d).ModTime ∧ (false : Bool) = false ∧
              checksumOf env w (some s) = checksumOf env w (some d)) := by
            intro h; exact hq ⟨h.1, h.2.1, h.2.2.2⟩
          simp [hq, hq']
    · exact ⟨w, by simp [Change.op, preOp, hs, hd, hdir], CacheExt.refl env w⟩

theorem Op_spec (env : Env) (c : Change) (w : World) :
    ∃ w', Change.Op env (some c) w = some (opOf env w c, w') ∧ CacheExt env w w' := by
  by_cases hf : c.Force = true
  · exact ⟨w, by simp [Change.Op, opOf, hf], CacheExt.refl env w⟩
  · obtain ⟨w1, h1, e1⟩ := op_spec env c w
    refine ⟨w1, ?_, e1⟩
    simp only [Change.Op, opOf, hf, h1]
    by_cases hq : preOp env w c ≠ OpAdd ∧ c.NoClobber = true
    · simp [hq]
    · simp [hq]

theorem preOp_ext {env : Env} {w1 w2 : World} (h : CacheExt env w1 w2) (c : Change) :
    preOp env w2 c = preOp env w1 c := by
  have hdir : ∀ p, (w2.heap p).IsDir = (w1.heap p).IsDir := by
    intro p; rcases h p with h | ⟨_, _, _, _, hw⟩ <;> simp [*]
  have hsz : ∀ p, (w2.heap p).Size = (w1.heap p).Size := by
    intro p; rcases h p with h | ⟨_, _, _, _, hw⟩ <;> simp [*]
  have hmt : ∀ p, (w2.heap p).ModTime = (w1.heap p).ModTime := by
    intro p; rcases h p with h | ⟨_, _, _, _, hw⟩ <;> simp [*]
  simp only [preOp, hdir, hsz, hmt, checksumOf_ext h]

theorem opOf_ext {env : Env} {w1 w2 : World} (h : CacheExt env w1 w2) (c : Change) :
    opOf env w2 c = opOf env w1 c := by
  simp only [opOf, preOp_ext h]

theorem rankOf_ext {env : Env} {w1 w2 : World} (h : CacheExt env w1 w2) (c : Option Change) :
    rankOf env w2 c = rankOf env w1 c := by
  cases c with
  | none => rfl
  | some ch => simp only [rankOf, opOf_ext h]

theorem preOp_mem (env : Env) (w : World) (c : Change) :
    preOp env w c = OpNone ∨ preOp env w c = OpAdd ∨ preOp env w c = OpDelete ∨
      preOp env w c = OpMod := by
  unfold preOp
  split
  · exact Or.inl rfl
  · exact Or.inr (Or.inl rfl)
  · exact Or.inr (Or.inr (Or.inl rfl))
  · split
    · exact Or.inr (Or.inr (Or.inr rfl))
    · split
      · exact Or.inl rfl
      · split
        · exact Or.inl rfl
        · exact Or.inr (Or.inr (Or.inr rfl))

theorem opOf_mem (env : Env) (w : World) (c : Change) :
    opOf env w c = OpNone ∨ opOf env w c = OpAdd ∨ opOf env w c = OpDelete ∨
      opOf env w c = OpMod := by
  unfold opOf
  split
  · exact Or.inr (Or.inl rfl)
  · split
    · exact Or.inl rfl
    · exact preOp_mem env w c

theorem rankOf_some_lt (env : Env) (w : World) (c : Change) : rankOf env w (some c) < 4 := by
  rcases opOf_mem env w c with h | h | h | h <;> simp [rankOf, h, opPrecedence, OpNone, OpAdd,
    OpDelete, OpMod]

theorem rankOf_le (env : Env) (w : World) (c : Option Change) : rankOf env w c ≤ 4 := by
  cases c with
  | none => exact Nat.le_refl 4
  | some ch => exact Nat.le_of_lt (rankOf_some_lt env w ch)

theorem Less_spec (env : Env) (cl : ByPrecedence) (i j : Nat) (w : World)
    (a b : Option Change) (hi : cl[i]? = some a) (hj : cl[j]? = some b) :
    ∃ w', ByPrecedence.Less env cl i j w =
        some (decide (rankOf env w a < rankOf env w b), w') ∧ CacheExt env w w' := by
  have h4 : rankOf env w none = 4 := rfl
  rcases a with _ | ci
  · refine ⟨w, ?_, CacheExt.refl env w⟩
    have hle : ¬ (4 < rankOf env w b) := Nat.not_lt.mpr (rankOf_le env w _)
    simp only [ByPrecedence.Less, hi, h4]
    simp [hle]
  · rcases b with _ | cj
    · refine ⟨w, ?_, CacheExt.refl env w⟩
      have hlt : opPrecedence (opOf env w ci) < 4 := rankOf_some_lt env w ci
      have hr : rankOf env w (some ci) = opPrecedence (opOf env w ci) := rfl
      simp only [ByPrecedence.Less, hi, hj, h4, hr]
      simp [hlt]
    · obtain ⟨w1, h1, e1⟩ := Op_spec env ci w
      obtain ⟨w2, h2, e2⟩ := Op_spec env cj w1
      rw [opOf_ext e1] at h2
      refine ⟨w2, ?_, e1.trans e2⟩
      simp [ByPrecedence.Less, hi, hj, h1, h2, rankOf]

theorem hexString_ne_empty (bs : List Nat) (h : bs ≠ []) : hexString bs ≠ "" := by
  cases bs with
  | nil => exact absurd rfl h
  | cons b rest =>
    intro hc
    have hd : (hexString (b :: rest)).data = ("" : String).data := by rw [hc]
    simp [hexString, hexByte] at hd

/-! ## The operation resolver -/

/-- C1: a change with `Force` set resolves to `OpAdd`, whatever `NoClobber` is and
whether `Src` and `Dest` are present, absent, equal or different; the world is
left as it was. -/
theorem C1_force_resolves_to_add (env : Env) (c : Change) (w : World)
    (hforce : c.Force = true) : Change.Op env (some c) w = some (OpAdd, w) := by
  simp [Change.Op, hforce]

theorem C1_force_resolves_to_add_witness :
    (sampleChange none none true true).Force = true ∧
      Change.Op sampleEnv (some (sampleChange none none true true)) sampleWorld =
        some (OpAdd, sampleWorld) :=
  ⟨rfl, C1_force_resolves_to_add sampleEnv (sampleChange none none true true) sampleWorld rfl⟩

/-- C2: with `NoClobber` set, the operation resolved before the policy (`OpAdd`
under `Force`, otherwise what `Change.op` returns) exists, `Change.Op` returns
`OpAdd` when it is `OpAdd` and `OpNone` when it is anything else, so the result
is always `OpNone` or `OpAdd`. -/
theorem C2_noClobber_demotes (env : Env) (c : Change) (w : World)
    (hnc : c.NoClobber = true) :
    ∃ pre w', (if c.Force then some (OpAdd, w) else Change.op env (some c) w) = some (pre, w') ∧
      (pre = OpAdd → Change.Op env (some c) w = some (OpAdd, w')) ∧
      (pre ≠ OpAdd → Change.Op env (some c) w = some (OpNone, w')) ∧
      ∃ op, Change.Op env (some c) w = some (op, w') ∧ (op = OpNone ∨ op = OpAdd) := by
  by_cases hf : c.Force = true
  · refine ⟨OpAdd, w, by simp [hf], ?_, ?_, OpAdd, ?_, Or.inr rfl⟩
    · intro _; simp [Change.Op, hf]
    · intro h; exact absurd rfl h
    · simp [Change.Op, hf]
  · obtain ⟨w1, h1, _⟩ := op_spec env c w
    refine ⟨preOp env w c, w1, by simp [hf, h1], ?_, ?_, ?_⟩
    · intro hp; simp [Change.Op, hf, h1, hp]
    · intro hp; simp [Change.Op, hf, h1, hp, hnc]
    · by_cases hp : preOp env w c = OpAdd
      · exact ⟨OpAdd, by simp [Change.Op, hf, h1, hp], Or.inr rfl⟩
      · exact ⟨OpNone, by simp [Change.Op, hf, h1, hp, hnc], Or.inl rfl⟩

theorem C2_noClobber_demotes_witness :
    (sampleChange (some 0) (some 2) false true).NoClobber = true ∧
    ∃ pre w', (if (sampleChange (some 0) (some 2) false true).Force then
          some (OpAdd, sampleWorld)
        else Change.op sampleEnv (some (sampleChange (some 0) (some 2) false true))
          sampleWorld) = some (pre, w') ∧
      (pre = OpAdd → Change.Op sampleEnv (some (sampleChange (some 0) (some 2) false true))
          sampleWorld = some (OpAdd, w')) ∧
      (pre ≠ OpAdd → Change.Op sampleEnv (some (sampleChange (some 0) (some 2) false true))
          sampleWorld = some (OpNone, w')) ∧
      ∃ op, Change.Op sampleEnv (some (sampleChange (some 0) (some 2) false true))
          sampleWorld = some (op, w') ∧ (op = OpNone ∨ op = OpAdd) :=
  ⟨rfl, C2_noClobber_demotes sampleEnv (sampleChange (some 0) (some 2) false true)
    sampleWorld rfl⟩

/-- C3 as stated fails: with `Force` unset, `NoClobber` set and only `Dest`
present, `Change.Op` returns `OpNone`, not `OpDelete`. -/
theorem C3_delete_under_noClobber_counterexample :
    (sampleChange none (some 0) false true).Force = false ∧
      (sampleChange none (some 0) false true).Src = none ∧
      (sampleChange none (some 0) false true).Dest ≠ none ∧
      (Change.Op sampleEnv (some (sampleChange none (some 0) false false)) sampleWorld).map
        Prod.fst = some OpDelete ∧
      (Change.Op sampleEnv (some (sampleChange none (some 0) false true)) sampleWorld).map
        Prod.fst = some OpNone ∧
      (Change.Op sampleEnv (some (sampleChange none (some 0) false true)) sampleWorld).map
        Prod.fst ≠ some OpDelete := by
  decide

/-- C3, amended: with `Force` unset and exactly one side present, `Change.Op`
returns `OpAdd` when only `Src` is present, whatever `NoClobber` is; when only
`Dest` is present it returns `OpDelete` if `NoClobber` is unset and `OpNone` if
`NoClobber` is set. The world is left as it was. -/
theorem C3_one_side_present (env : Env) (c : Change) (w : World) (hforce : c.Force = false) :
    (c.Src ≠ none ∧ c.Dest = none → Change.Op env (some c) w = some (OpAdd, w)) ∧
    (c.Src = none ∧ c.Dest ≠ none →
      Change.Op env (some c) w = some (if c.NoClobber then OpNone else OpDelete, w)) := by
  constructor
  · rintro ⟨hs, hd⟩
    obtain ⟨s, hs'⟩ := Option.ne_none_iff_exists'.mp hs
    simp [Change.Op, Change.op, hforce, hs', hd]
  · rintro ⟨hs, hd⟩
    obtain ⟨d, hd'⟩ := Option.ne_none_iff_exists'.mp hd
    by_cases hnc : c.NoClobber = true
    · simp [Change.Op, Change.op, hforce, hs, hd', hnc, OpAdd, OpDelete]
    · simp [Change.Op, Change.op, hforce, hs, hd', hnc]

theorem C3_one_side_present_witness :
    (sampleChange none (some 0) false true).Force = false ∧
    ((sampleChange none (some 0) false true).Src ≠ none ∧
        (sampleChange none (some 0) false true).Dest = none →
      Change.Op sampleEnv (some (sampleChange none (some 0) false true)) sampleWorld =
        some (OpAdd, sampleWorld)) ∧
    ((sampleChange none (some 0) false true).Src = none ∧
        (sampleChange none (some 0) false true).Dest ≠ none →
      Change.Op sampleEnv (some (sampleChange none (some 0) false true)) sampleWorld =
        some (if (sampleChange none (some 0) false true).NoClobber then OpNone else OpDelete,
          sampleWorld)) :=
  ⟨rfl, C3_one_side_present sampleEnv (sampleChange none (some 0) false true) sampleWorld rfl⟩

theorem Op_plain (env : Env) (c : Change) (w : World) (hforce : c.Force = false)
    (hnc : c.NoClobber = false) : opOf env w c = preOp env w c := by
  simp [opOf, hforce, hnc]

/-- C4: with `Force` and `NoClobber` unset, `Change.Op` returns a label, which is
`OpAdd` exactly when `Src` is present and `Dest` absent, `OpDelete` exactly when
`Src` is absent and `Dest` present, `OpNone` when both are absent, and `OpNone`
or `OpMod` when both are present. -/
theorem C4_presence_table (env : Env) (c : Change) (w : World) (hforce : c.Force = false)
    (hnc : c.NoClobber = false) :
    ∃ op w', Change.Op env (some c) w = some (op, w') ∧
      (op = OpAdd ↔ c.Src ≠ none ∧ c.Dest = none) ∧
      (op = OpDelete ↔ c.Src = none ∧ c.Dest ≠ none) ∧
      (c.Src = none ∧ c.Dest = none → op = OpNone) ∧
      (c.Src ≠ none ∧ c.Dest ≠ none → op = OpNone ∨ op = OpMod) := by
  obtain ⟨w1, h1, _⟩ := Op_spec env c w
  rw [Op_plain env c w hforce hnc] at h1
  refine ⟨preOp env w c, w1, h1, ?_⟩
  rcases hs : c.Src with _ | s <;> rcases hd : c.Dest with _ | d
  · simp [preOp, hs, hd, OpNone, OpAdd, OpDelete]
  · simp [preOp, hs, hd, OpAdd, OpDelete]
  · simp [preOp, hs, hd, OpAdd, OpDelete]
  · have hmem : preOp env w c = OpNone ∨ preOp env w c = OpMod := by
      simp only [preOp, hs, hd]
      split
      · exact Or.inr rfl
      · split
        · exact Or.inl rfl
        · split
          · exact Or.inl rfl
          · exact Or.inr rfl
    rcases hmem with h | h <;> simp [h, OpNone, OpAdd, OpDelete, OpMod]

theorem C4_presence_table_witness :
    (sampleChange (some 0) none false false).Force = false ∧
    (sampleChange (some 0) none false false).NoClobber = false ∧
    ∃ op w', Change.Op sampleEnv (some (sampleChange (some 0) none false false)) sampleWorld =
        some (op, w') ∧
      (op = OpAdd ↔ (sampleChange (some 0) none false false).Src ≠ none ∧
        (sampleChange (some 0) none false false).Dest = none) ∧
      (op = OpDelete ↔ (sampleChange (some 0) none false false).Src = none ∧
        (sampleChange (some 0) none false false).Dest ≠ none) ∧
      ((sampleChange (some 0) none false false).Src = none ∧
        (sampleChange (some 0) none false false).Dest = none → op = OpNone) ∧
      ((sampleChange (some 0) none false false).Src ≠ none ∧
        (sampleChange (some 0) none false false).Dest ≠ none → op = OpNone ∨ op = OpMod) :=
  ⟨rfl, rfl, C4_presence_table sampleEnv (sampleChange (some 0) none false false) sampleWorld
    rfl rfl⟩

/-- C5: with `Force` and `NoClobber` unset and both sides present regular files,
`md5Checksum` gives a checksum for each side and `Change.Op` returns `OpNone`
exactly when the sizes are equal, the modification times are equal and the two
checksums are equal, and `OpMod` in every other case. In particular, for stored
checksums that are not empty and equal size and modification time, equal
checksums give `OpNone` and different ones `OpMod`. -/
theorem C5_regular_files (env : Env) (c : Change) (w : World) (s d : Nat)
    (hforce : c.Force = false) (hnc : c.NoClobber = false)
    (hsrc : c.Src = some s) (hdest : c.Dest = some d)
    (hsreg : (w.heap s).IsDir = false) (hdreg : (w.heap d).IsDir = false) :
    ∃ sum1 w1 sum2 w2 op w',
      md5Checksum env (some s) w = some (sum1, w1) ∧
      md5Checksum env (some d) w = some (sum2, w2) ∧
      Change.Op env (some c) w = some (op, w') ∧
      (op = OpNone ↔ (w.heap s).Size = (w.heap d).Size ∧
        (w.heap s).ModTime = (w.heap d).ModTime ∧ sum1 = sum2) ∧
      (¬ ((w.heap s).Size = (w.heap d).Size ∧
        (w.heap s).ModTime = (w.heap d).ModTime ∧ sum1 = sum2) → op = OpMod) ∧
      ((w.heap s).Md5Checksum ≠ "" → (w.heap d).Md5Checksum ≠ "" →
        (w.heap s).Size = (w.heap d).Size → (w.heap s).ModTime = (w.heap d).ModTime →
        ((w.heap s).Md5Checksum = (w.heap d).Md5Checksum → op = OpNone) ∧
        ((w.heap s).Md5Checksum ≠ (w.heap d).Md5Checksum → op = OpMod)) := by
  obtain ⟨w1, h1, _⟩ := md5Checksum_spec env (some s) w
  obtain ⟨w2, h2, _⟩ := md5Checksum_spec env (some d) w
  obtain ⟨w3, h3, _⟩ := Op_spec env c w
  rw [Op_plain env c w hforce hnc] at h3
  have hpre : preOp env w c =
      if (w.heap s).Size = (w.heap d).Size ∧ (w.heap s).ModTime = (w.heap d).ModTime ∧
        checksumOf env w (some s) = checksumOf env w (some d) then OpNone else OpMod := by
    simp [preOp, hsrc, hdest, hsreg, hdreg]
  refine ⟨_, w1, _, w2, _, w3, h1, h2, h3, ?_, ?_, ?_⟩
  · rw [hpre]
    split
    · simp [*]
    · simp [*, OpMod, OpNone]
  · intro hne
    rw [hpre, if_neg hne]
  · intro hs hd hsz hmt
    have c1 : checksumOf env w (some s) = (w.heap s).Md5Checksum := by
      simp [checksumOf, hsreg, hs]
    have c2 : checksumOf env w (some d) = (w.heap d).Md5Checksum := by
      simp [checksumOf, hdreg, hd]
    rw [hpre, c1, c2]
    constructor
    · intro he; simp [hsz, hmt, he]
    · intro he; simp [hsz, hmt, he]

theorem C5_regular_files_witness :
    (sampleChange (some 0) (some 1) false false).Force = false ∧
    (sampleChange (some 0) (some 1) false false).NoClobber = false ∧
    (sampleChange (some 0) (some 1) false false).Src = some 0 ∧
    (sampleChange (some 0) (some 1) false false).Dest = some 1 ∧
    (sampleWorld.heap 0).IsDir = false ∧ (sampleWorld.heap 1).IsDir = false ∧
    ∃ sum1 w1 sum2 w2 op w',
      md5Checksum sampleEnv (some 0) sampleWorld = some (sum1, w1) ∧
      md5Checksum sampleEnv (some 1) sampleWorld = some (sum2, w2) ∧
      Change.Op sampleEnv (some (sampleChange (some 0) (some 1) false false)) sampleWorld =
        some (op, w') ∧
      (op = OpNone ↔ (sampleWorld.heap 0).Size = (sampleWorld.heap 1).Size ∧
        (sampleWorld.heap 0).ModTime = (sampleWorld.heap 1).ModTime ∧ sum1 = sum2) ∧
      (¬ ((sampleWorld.heap 0).Size = (sampleWorld.heap 1).Size ∧
        (sampleWorld.heap 0).ModTime = (sampleWorld.heap 1).ModTime ∧ sum1 = sum2) →
          op = OpMod) ∧
      ((sampleWorld.heap 0).Md5Checksum ≠ "" → (sampleWorld.heap 1).Md5Checksum ≠ "" →
        (sampleWorld.heap 0).Size = (sampleWorld.heap 1).Size →
        (sampleWorld.heap 0).ModTime = (sampleWorld.heap 1).ModTime →
        ((sampleWorld.heap 0).Md5Checksum = (sampleWorld.heap 1).Md5Checksum → op = OpNone) ∧
        ((sampleWorld.heap 0).Md5Checksum ≠ (sampleWorld.heap 1).Md5Checksum → op = OpMod)) :=
  ⟨rfl, rfl, rfl, rfl, rfl, rfl,
    C5_regular_files sampleEnv (sampleChange (some 0) (some 1) false false) sampleWorld 0 1
      rfl rfl rfl rfl rfl rfl⟩

/-- C6: with `Force` and `NoClobber` unset, both sides present and at least one
of them a directory, `Change.Op` returns `OpMod` exactly when one side is a
directory and the other is not, and `OpNone` when both are directories, whatever
their sizes, modification times and stored checksums; the world is left as it
was. -/
theorem C6_directories (env : Env) (c : Change) (w : World) (s d : Nat)
    (hforce : c.Force = false) (hnc : c.NoClobber = false)
    (hsrc : c.Src = some s) (hdest : c.Dest = some d)
    (hdir : (w.heap s).IsDir = true ∨ (w.heap d).IsDir = true) :
    ∃ op, Change.Op env (some c) w = some (op, w) ∧
      (op = OpMod ↔ (w.heap s).IsDir ≠ (w.heap d).IsDir) ∧
      ((w.heap s).IsDir = true ∧ (w.heap d).IsDir = true → op = OpNone) := by
  by_cases hsd : (w.heap s).IsDir = true
  · by_cases hdd : (w.heap d).IsDir = true
    · exact ⟨OpNone, by simp [Change.Op, Change.op, hforce, hnc, hsrc, hdest, hsd, hdd],
        by simp [hsd, hdd, OpNone, OpMod], fun _ => rfl⟩
    · exact ⟨OpMod, by simp [Change.Op, Change.op, hforce, hnc, hsrc, hdest, hsd, hdd],
        by simp [hsd, hdd], fun h => absurd h.2 hdd⟩
  · have hdd : (w.heap d).IsDir = true := hdir.resolve_left hsd
    exact ⟨OpMod, by simp [Change.Op, Change.op, hforce, hnc, hsrc, hdest, hsd, hdd],
      by simp [hsd, hdd], fun h => absurd h.1 hsd⟩

theorem C6_directories_witness :
    (sampleChange (some 3) (some 0) false false).Force = false ∧
    (sampleChange (some 3) (some 0) false false).NoClobber = false ∧
    (sampleChange (some 3) (some 0) false false).Src = some 3 ∧
    (sampleChange (some 3) (some 0) false false).Dest = some 0 ∧
    ((sampleWorld.heap 3).IsDir = true ∨ (sampleWorld.heap 0).IsDir = true) ∧
    ∃ op, Change.Op sampleEnv (some (sampleChange (some 3) (some 0) false false)) sampleWorld =
        some (op, sampleWorld) ∧
      (op = OpMod ↔ (sampleWorld.heap 3).IsDir ≠ (sampleWorld.heap 0).IsDir) ∧
      ((sampleWorld.heap 3).IsDir = true ∧ (sampleWorld.heap 0).IsDir = true → op = OpNone) :=
  ⟨rfl, rfl, rfl, rfl, Or.inl rfl,
    C6_directories sampleEnv (sampleChange (some 3) (some 0) false false) sampleWorld 3 0
      rfl rfl rfl rfl (Or.inl rfl)⟩

theorem fileDifferences_spec (env : Env) (src dest : Option Nat) (w : World) :
    ∃ w', fileDifferences env src dest w = some (differencesOf env w src dest, w') ∧
      CacheExt env w w' := by
  rcases src with _ | s <;> rcases dest with _ | d
  · exact ⟨w, rfl, CacheExt.refl env w⟩
  · exact ⟨w, rfl, CacheExt.refl env w⟩
  · exact ⟨w, rfl, CacheExt.refl env w⟩
  · obtain ⟨w1, h1, e1⟩ := md5Checksum_spec env (some s) w
    obtain ⟨w2, h2, e2⟩ := md5Checksum_spec env (some d) w1
    rw [checksumOf_ext e1] at h2
    refine ⟨w2, ?_, e1.trans e2⟩
    simp only [fileDifferences, differencesOf, h1, h2]
    split <;> rfl

theorem lor_land_self (m k : Nat) : (m ||| k) &&& k = k := by
  apply Nat.eq_of_testBit_eq
  intro i
  simp only [Nat.testBit_and, Nat.testBit_or]
  cases m.testBit i <;> cases k.testBit i <;> rfl

/-- C7 as stated fails: when both regular files of equal size and modification
time have no stored checksum and unreadable content, both checksums are empty
and the pair is treated as equal: `Change.Op` returns `OpNone` and
`fileDifferences` does not set the `DifferMd5Checksum` bit. -/
theorem C7_both_unreadable_counterexample :
    (sampleWorld.heap 4).IsDir = false ∧ (sampleWorld.heap 5).IsDir = false ∧
      (sampleWorld.heap 4).Size = (sampleWorld.heap 5).Size ∧
      (sampleWorld.heap 4).ModTime = (sampleWorld.heap 5).ModTime ∧
      (sampleWorld.heap 4).Md5Checksum = "" ∧
      sampleEnv.fs (sampleWorld.heap 4).BlobAt = ReadResult.openError ∧
      (sampleWorld.heap 5).Md5Checksum = "" ∧
      sampleEnv.fs (sampleWorld.heap 5).BlobAt = ReadResult.readError ∧
      (md5Checksum sampleEnv (some 4) sampleWorld).map Prod.fst = some "" ∧
      (md5Checksum sampleEnv (some 5) sampleWorld).map Prod.fst = some "" ∧
      (Change.Op sampleEnv (some (sampleChange (some 4) (some 5) false false))
        sampleWorld).map Prod.fst = some OpNone ∧
      (Change.Op sampleEnv (some (sampleChange (some 4) (some 5) false false))
        sampleWorld).map Prod.fst ≠ some OpMod ∧
      (fileDifferences sampleEnv (some 4) (some 5) sampleWorld).map
        (fun r => checksumDiffers r.1) = some false := by
  decide

/-- C7, amended: for present regular files with `Force` and `NoClobber` unset
(of equal size and modification time, or not), if exactly one side has no stored
checksum and content that cannot be opened or read, while the other side has a
stored checksum or readable content (whose digest has the sixteen bytes of an
MD5 sum), then `Change.Op` returns `OpMod` and `fileDifferences` sets the
`DifferMd5Checksum` bit. -/
theorem C7_one_side_unreadable (env : Env) (c : Change) (w : World) (s d : Nat)
    (hmd5 : ∀ bytes, (env.md5sum bytes).length = 16)
    (hforce : c.Force = false) (hnc : c.NoClobber = false)
    (hsrc : c.Src = some s) (hdest : c.Dest = some d)
    (hsreg : (w.heap s).IsDir = false) (hdreg : (w.heap d).IsDir = false)
    (hone :
      (((w.heap s).Md5Checksum = "" ∧
          (env.fs (w.heap s).BlobAt = ReadResult.openError ∨
            env.fs (w.heap s).BlobAt = ReadResult.readError)) ∧
        ((w.heap d).Md5Checksum ≠ "" ∨ ∃ bytes, env.fs (w.heap d).BlobAt =
          ReadResult.content bytes)) ∨
      (((w.heap d).Md5Checksum = "" ∧
          (env.fs (w.heap d).BlobAt = ReadResult.openError ∨
            env.fs (w.heap d).BlobAt = ReadResult.readError)) ∧
        ((w.heap s).Md5Checksum ≠ "" ∨ ∃ bytes, env.fs (w.heap s).BlobAt =
          ReadResult.content bytes))) :
    (∃ w', Change.Op env (some c) w = some (OpMod, w')) ∧
      ∃ mask w', fileDifferences env (some s) (some d) w = some (mask, w') ∧
        mask &&& DifferMd5Checksum ≠ 0 ∧ checksumDiffers mask = true := by
  have hhex : ∀ bytes, hexString (env.md5sum bytes) ≠ "" := by
    intro bytes
    apply hexString_ne_empty
    intro hnil
    have := hmd5 bytes
    rw [hnil] at this
    exact absurd this (by decide)
  have hbad : ∀ p, (w.heap p).IsDir = false → (w.heap p).Md5Checksum = "" →
      (env.fs (w.heap p).BlobAt = ReadResult.openError ∨
        env.fs (w.heap p).BlobAt = ReadResult.readError) →
      checksumOf env w (some p) = "" := by
    intro p hreg hm hfs
    rcases hfs with hfs | hfs <;> simp [checksumOf, hreg, hm, hfs]
  have hgood : ∀ p, (w.heap p).IsDir = false →
      ((w.heap p).Md5Checksum ≠ "" ∨ ∃ bytes, env.fs (w.heap p).BlobAt =
        ReadResult.content bytes) → checksumOf env w (some p) ≠ "" := by
    intro p hreg hg
    by_cases hm : (w.heap p).Md5Checksum = ""
    · rcases hg with hg | ⟨bytes, hb⟩
      · exact absurd hm hg
      · simp only [checksumOf, hreg, hm, hb]
        simpa using hhex bytes
    · simp [checksumOf, hreg, hm]
  have hdiff : checksumOf env w (some s) ≠ checksumOf env w (some d) := by
    rcases hone with ⟨⟨hm, hfs⟩, hg⟩ | ⟨⟨hm, hfs⟩, hg⟩
    · rw [hbad s hsreg hm hfs]
      exact fun h => hgood d hdreg hg h.symm
    · rw [hbad d hdreg hm hfs]
      exact hgood s hsreg hg
  constructor
  · obtain ⟨w1, h1, _⟩ := Op_spec env c w
    refine ⟨w1, ?_⟩
    rw [h1, Op_plain env c w hforce hnc]
    simp [preOp, hsrc, hdest, hsreg, hdreg, hdiff]
  · obtain ⟨w1, h1, _⟩ := fileDifferences_spec env (some s) (some d) w
    have hbit : differencesOf env w (some s) (some d) &&& DifferMd5Checksum =
        DifferMd5Checksum := by
      simp only [differencesOf, hdiff, ne_eq, not_false_eq_true, if_true]
      exact lor_land_self _ _
    refine ⟨_, w1, h1, ?_, ?_⟩
    · rw [hbit]; decide
    · simp only [checksumDiffers, hbit]; decide

theorem C7_one_side_unreadable_witness :
    (∀ bytes, (sampleEnv.md5sum bytes).length = 16) ∧
    (sampleWorld.heap 4).Size = (sampleWorld.heap 6).Size ∧
    (sampleWorld.heap 4).ModTime = (sampleWorld.heap 6).ModTime ∧
    ((∃ w', Change.Op sampleEnv (some (sampleChange (some 4) (some 6) false false))
        sampleWorld = some (OpMod, w')) ∧
      ∃ mask w', fileDifferences sampleEnv (some 4) (some 6) sampleWorld = some (mask, w') ∧
        mask &&& DifferMd5Checksum ≠ 0 ∧ checksumDiffers mask = true) :=
  ⟨fun _ => List.length_replicate _ _, rfl, rfl,
    C7_one_side_unreadable sampleEnv (sampleChange (some 4) (some 6) false false) sampleWorld
      4 6 (fun _ => List.length_replicate _ _) rfl rfl rfl rfl rfl rfl
      (Or.inl ⟨⟨rfl, Or.inl rfl⟩, Or.inr ⟨[1, 2, 3], rfl⟩⟩)⟩

/-- C8: for every change, whatever its sides, flags and the readability of the
content, `Change.Op` returns (no nil dereference, no error) and the label it
returns is one of `OpNone`, `OpAdd`, `OpDelete`, `OpMod`. -/
theorem C8_Op_total (env : Env) (c : Change) (w : World) :
    ∃ op w', Change.Op env (some c) w = some (op, w') ∧
      (op = OpNone ∨ op = OpAdd ∨ op = OpDelete ∨ op = OpMod) := by
  obtain ⟨w1, h1, _⟩ := Op_spec env c w
  exact ⟨opOf env w c, w1, h1, opOf_mem env w c⟩

/-! ## The sort -/

theorem getElem?_block {α : Type} (l : List α) (y : α) (rest : List α) :
    (l ++ y :: rest)[l.length]? = some y := by
  induction l with
  | nil => simp
  | cons a l ih => simpa using ih

theorem getElem?_block_succ {α : Type} (l : List α) (y x : α) (rest : List α) :
    (l ++ y :: x :: rest)[l.length + 1]? = some x := by
  induction l with
  | nil => simp
  | cons a l ih => simpa using ih

theorem set_block {α : Type} (l : List α) (y z : α) (rest : List α) :
    (l ++ y :: rest).set l.length z = l ++ z :: rest := by
  induction l with
  | nil => rfl
  | cons a l ih => simp

theorem set_block_succ {α : Type} (l : List α) (y x z : α) (rest : List α) :
    (l ++ y :: x :: rest).set (l.length + 1) z = l ++ y :: z :: rest := by
  induction l with
  | nil => rfl
  | cons a l ih => simp

theorem Swap_block (l : ByPrecedence) (y x : Option Change) (rest : ByPrecedence) :
    ByPrecedence.Swap (l ++ y :: x :: rest) (l.length + 1) l.length =
      some (l ++ x :: y :: rest) := by
  simp only [ByPrecedence.Swap, getElem?_block, getElem?_block_succ, set_block_succ, set_block]

theorem insertBack_perm {α : Type} (key : α → Nat) (r : List α) (x : α) :
    (insertBack key r x).Perm (r.reverse ++ [x]) := by
  induction r with
  | nil => exact List.Perm.refl _
  | cons y r ih =>
    simp only [insertBack]
    split
    · have h1 : (insertBack key r x ++ [y]).Perm ((r.reverse ++ [x]) ++ [y]) :=
        List.Perm.append_right [y] ih
      refine h1.trans ?_
      simp only [List.reverse_cons, List.append_assoc]
      exact List.Perm.append_left _ (List.Perm.swap y x [])
    · exact List.Perm.refl _

theorem insertBack_length {α : Type} (key : α → Nat) (r : List α) (x : α) :
    (insertBack key r x).length = r.length + 1 := by
  simpa using (insertBack_perm key r x).length_eq

theorem insertBack_sorted {α : Type} (key : α → Nat) (r : List α) (x : α)
    (h : (r.reverse).Pairwise (fun a b => key a ≤ key b)) :
    (insertBack key r x).Pairwise (fun a b => key a ≤ key b) := by
  induction r with
  | nil => simp [insertBack]
  | cons y r ih =>
    rw [List.reverse_cons, List.pairwise_append] at h
    obtain ⟨hr, _, hy⟩ := h
    simp only [insertBack]
    split
    · rename_i hlt
      rw [List.pairwise_append]
      refine ⟨ih hr, List.pairwise_singleton _ _, ?_⟩
      intro a ha b hb
      rw [List.mem_singleton] at hb
      subst hb
      have ha' := (insertBack_perm key r x).mem_iff.mp ha
      rw [List.mem_append, List.mem_singleton] at ha'
      rcases ha' with ha' | ha'
      · exact hy a ha' b (List.mem_singleton.mpr rfl)
      · subst ha'; exact Nat.le_of_lt hlt
    · rename_i hge
      rw [List.reverse_cons, List.pairwise_append]
      refine ⟨List.pairwise_append.mpr ⟨hr, List.pairwise_singleton _ _, hy⟩,
        List.pairwise_singleton _ _, ?_⟩
      intro a ha b hb
      rw [List.mem_singleton] at hb
      subst hb
      have hyx : key y ≤ key b := Nat.le_of_not_lt hge
      rw [List.mem_append, List.mem_singleton] at ha
      rcases ha with ha | ha
      · exact Nat.le_trans (hy a ha y (List.mem_singleton.mpr rfl)) hyx
      · subst ha; exact hyx

theorem insertBack_filter {α : Type} (key : α → Nat) (p : α → Bool)
    (hp : ∀ a b, p a = true → p b = true → key a = key b) (r : List α) (x : α) :
    (insertBack key r x).filter p = (r.reverse ++ [x]).filter p := by
  induction r with
  | nil => rfl
  | cons y r ih =>
    simp only [insertBack]
    split
    · rename_i hlt
      rw [List.filter_append, ih, List.reverse_cons]
      simp only [List.filter_append, List.append_assoc]
      congr 1
      by_cases hx : p x = true
      · by_cases hy : p y = true
        · exact absurd (hp x y hx hy) (Nat.ne_of_lt hlt)
        · simp [hx, hy]
      · simp [hx]
    · rfl

theorem sortFrom_perm {α : Type} (key : α → Nat) (done rest : List α) :
    (sortFrom key done rest).Perm (done ++ rest) := by
  induction rest generalizing done with
  | nil => simp [sortFrom]
  | cons x rest ih =>
    simp only [sortFrom]
    refine (ih _).trans ?_
    have h := insertBack_perm key done.reverse x
    rw [List.reverse_reverse] at h
    simpa using List.Perm.append_right rest h

theorem sortFrom_sorted {α : Type} (key : α → Nat) (done rest : List α)
    (h : done.Pairwise (fun a b => key a ≤ key b)) :
    (sortFrom key done rest).Pairwise (fun a b => key a ≤ key b) := by
  induction rest generalizing done with
  | nil => simpa [sortFrom] using h
  | cons x rest ih =>
    simp only [sortFrom]
    apply ih
    apply insertBack_sorted
    rw [List.reverse_reverse]
    exact h

theorem sortFrom_filter {α : Type} (key : α → Nat) (p : α → Bool)
    (hp : ∀ a b, p a = true → p b = true → key a = key b) (done rest : List α) :
    (sortFrom key done rest).filter p = (done ++ rest).filter p := by
  induction rest generalizing done with
  | nil => simp [sortFrom]
  | cons x rest ih =>
    simp only [sortFrom]
    rw [ih, List.filter_append, insertBack_filter key p hp, List.reverse_reverse]
    simp only [List.filter_append, List.append_assoc]
    rw [← List.filter_append, List.singleton_append]

theorem sortedBy_perm {α : Type} (key : α → Nat) (l : List α) : (sortedBy key l).Perm l := by
  cases l with
  | nil => exact List.Perm.refl _
  | cons x rest => exact sortFrom_perm key [x] rest

theorem sortedBy_sorted {α : Type} (key : α → Nat) (l : List α) :
    (sortedBy key l).Pairwise (fun a b => key a ≤ key b) := by
  cases l with
  | nil => exact List.Pairwise.nil
  | cons x rest => exact sortFrom_sorted key [x] rest (List.pairwise_singleton _ _)

theorem sortedBy_filter {α : Type} (key : α → Nat) (p : α → Bool)
    (hp : ∀ a b, p a = true → p b = true → key a = key b) (l : List α) :
    (sortedBy key l).filter p = l.filter p := by
  cases l with
  | nil => rfl
  | cons x rest => exact sortFrom_filter key p hp [x] rest

theorem insertionInner_spec (env : Env) (w0 : World) (r : ByPrecedence) :
    ∀ (x : Option Change) (post : ByPrecedence) (w : World), CacheExt env w0 w →
      ∃ w', insertionInner env 0 r.length (r.reverse ++ x :: post) w =
          some (insertBack (rankOf env w0) r x ++ post, w') ∧ CacheExt env w0 w' := by
  induction r with
  | nil =>
    intro x post w hw
    exact ⟨w, rfl, hw⟩
  | cons y r ih =>
    intro x post w hw
    have hlen : r.reverse.length = r.length := List.length_reverse r
    have hcl : (y :: r).reverse ++ x :: post = r.reverse ++ y :: x :: post := by simp
    have hj : (r.reverse ++ y :: x :: post)[r.length]? = some y := by
      rw [← hlen]; exact getElem?_block _ _ _
    have hi : (r.reverse ++ y :: x :: post)[r.length + 1]? = some x := by
      rw [← hlen]; exact getElem?_block_succ _ _ _ _
    obtain ⟨w1, h1, e1⟩ := Less_spec env _ (r.length + 1) r.length w x y hi hj
    rw [rankOf_ext hw, rankOf_ext hw] at h1
    have hsw : ByPrecedence.Swap (r.reverse ++ y :: x :: post) (r.length + 1) r.length =
        some (r.reverse ++ x :: y :: post) := by
      rw [← hlen]; exact Swap_block _ _ _ _
    by_cases hlt : rankOf env w0 x < rankOf env w0 y
    · obtain ⟨w2, h2, e2⟩ := ih x (y :: post) w1 (hw.trans e1)
      refine ⟨w2, ?_, e2⟩
      rw [hcl]
      simp only [List.length_cons, insertionInner, Nat.succ_pos, gt_iff_lt, if_true, h1,
        hlt, decide_True, hsw, h2, insertBack]
      simp
    · refine ⟨w1, ?_, hw.trans e1⟩
      rw [hcl]
      simp only [List.length_cons, insertionInner, Nat.succ_pos, gt_iff_lt, if_true, h1,
        hlt, decide_False, insertBack]
      simp

theorem insertionOuter_spec (env : Env) (w0 : World) (rest : ByPrecedence) :
    ∀ (done : ByPrecedence) (w : World), CacheExt env w0 w →
      ∃ w', insertionOuter env 0 (done ++ rest).length rest.length done.length
          (done ++ rest) w = some (sortFrom (rankOf env w0) done rest, w') ∧
        CacheExt env w0 w' := by
  induction rest with
  | nil =>
    intro done w hw
    exact ⟨w, by simp [insertionOuter, sortFrom], hw⟩
  | cons x rest ih =>
    intro done w hw
    obtain ⟨w1, h1, e1⟩ := insertionInner_spec env w0 done.reverse x rest w hw
    rw [List.reverse_reverse, List.length_reverse] at h1
    obtain ⟨w2, h2, e2⟩ := ih (insertBack (rankOf env w0) done.reverse x) w1 e1
    rw [insertBack_length, List.length_reverse] at h2
    have hb : (insertBack (rankOf env w0) done.reverse x ++ rest).length =
        (done ++ x :: rest).length := by
      simp [insertBack_length]; omega
    rw [hb] at h2
    refine ⟨w2, ?_, e2⟩
    have hlt : done.length < (done ++ x :: rest).length := by simp
    simp only [List.length_cons, insertionOuter, hlt, if_true, h1, sortFrom]
    simpa using h2

theorem stableSort_spec (env : Env) (cl : ByPrecedence) (w : World) :
    ∃ w', stableSort env cl w = some (sortedBy (rankOf env w) cl, w') ∧ CacheExt env w w' := by
  cases cl with
  | nil => exact ⟨w, rfl, CacheExt.refl env w⟩
  | cons x rest =>
    obtain ⟨w1, h1, e1⟩ := insertionOuter_spec env w rest [x] w (CacheExt.refl env w)
    refine ⟨w1, ?_, e1⟩
    simpa [stableSort, insertionSort, ByPrecedence.Len, sortedBy] using h1

theorem Op_label (env : Env) (a : Option Change) (w : World) :
    (Change.Op env a w).map Prod.fst = a.map (opOf env w) := by
  cases a with
  | none => rfl
  | some c =>
    obtain ⟨w1, h1, _⟩ := Op_spec env c w
    rw [h1]; rfl

theorem rank_order (env : Env) (w : World) (ca cb : Change)
    (h : rankOf env w (some ca) ≤ rankOf env w (some cb)) :
    opPrecedence (opOf env w ca) ≤ opPrecedence (opOf env w cb) ∧
      (opOf env w ca = OpDelete → opOf env w cb ≠ OpNone) ∧
      (opOf env w ca = OpAdd → opOf env w cb ≠ OpNone ∧ opOf env w cb ≠ OpDelete) ∧
      (opOf env w ca = OpMod → opOf env w cb = OpMod) := by
  refine ⟨h, ?_⟩
  simp only [rankOf] at h
  rcases opOf_mem env w ca with ha | ha | ha | ha <;>
    rcases opOf_mem env w cb with hb | hb | hb | hb <;>
    simp [ha, hb, opPrecedence, OpNone, OpAdd, OpDelete, OpMod] at h ⊢

/-- C9: stably sorting a batch of present changes with `ByPrecedence` returns a
permutation of the batch in which, by resolved `Op`, precedence never decreases
(no Delete before a None, no Add before a None or a Delete, nothing but Modify
after a Modify), changes with the same resolved `Op` keep their input order, and
every change resolves to the same `Op` after the sort as before it; the batch
[Modify, Add, Delete] becomes [Delete, Add, Modify]. -/
theorem C9_stable_sort_by_precedence :
    (∀ (env : Env) (cl : List Change) (w : World),
      ∃ out w', stableSort env (cl.map some) w = some (out, w') ∧
        out.Perm (cl.map some) ∧
        out.Pairwise (fun a b => ∃ opa wa opb wb,
          Change.Op env a w = some (opa, wa) ∧ Change.Op env b w = some (opb, wb) ∧
          opPrecedence opa ≤ opPrecedence opb ∧
          (opa = OpDelete → opb ≠ OpNone) ∧
          (opa = OpAdd → opb ≠ OpNone ∧ opb ≠ OpDelete) ∧
          (opa = OpMod → opb = OpMod)) ∧
        (∀ op, out.filter (fun a => decide ((Change.Op env a w).map Prod.fst = some op)) =
          (cl.map some).filter
            (fun a => decide ((Change.Op env a w).map Prod.fst = some op))) ∧
        (∀ c, c ∈ cl → (Change.Op env (some c) w').map Prod.fst =
          (Change.Op env (some c) w).map Prod.fst)) ∧
    (stableSort sampleEnv
        [some (sampleChange (some 0) (some 2) false false),
          some (sampleChange (some 0) none false false),
          some (sampleChange none (some 0) false false)] sampleWorld).map Prod.fst =
      some [some (sampleChange none (some 0) false false),
        some (sampleChange (some 0) none false false),
        some (sampleChange (some 0) (some 2) false false)] := by
  constructor
  · intro env cl w
    obtain ⟨w1, h1, e1⟩ := stableSort_spec env (cl.map some) w
    have hperm := sortedBy_perm (rankOf env w) (cl.map some)
    refine ⟨_, w1, h1, hperm, ?_, ?_, ?_⟩
    · refine List.Pairwise.imp_of_mem ?_ (sortedBy_sorted (rankOf env w) (cl.map some))
      intro a b ha hb hab
      obtain ⟨ca, _, rfl⟩ := List.mem_map.mp (hperm.mem_iff.mp ha)
      obtain ⟨cb, _, rfl⟩ := List.mem_map.mp (hperm.mem_iff.mp hb)
      obtain ⟨wa, hwa, _⟩ := Op_spec env ca w
      obtain ⟨wb, hwb, _⟩ := Op_spec env cb w
      exact ⟨_, wa, _, wb, hwa, hwb, rank_order env w ca cb hab⟩
    · intro op
      apply sortedBy_filter
      intro a b ha hb
      rw [decide_eq_true_eq, Op_label] at ha hb
      rcases a with _ | ca
      · simp at ha
      · rcases b with _ | cb
        · simp at hb
        · simp only [Option.map_some', Option.some.injEq] at ha hb
          simp only [rankOf, ha, hb]
    · intro c _
      rw [Op_label, Op_label]
      simp only [Option.map_some', opOf_ext e1]
  · decide

/-- C10: for valid indices, `Less(i, j)` is false when entry `i` is nil and true
when entry `i` is present and entry `j` is nil, whatever the operation of entry
`i`; and sorting any batch, nil entries allowed, returns a permutation of it in
which no nil entry stands before a present one. -/
theorem C10_nil_sorts_last (env : Env) (cl : ByPrecedence) (w : World) :
    (∀ i j, i < cl.length → j < cl.length → cl[i]? = some none →
      ByPrecedence.Less env cl i j w = some (false, w)) ∧
    (∀ i j ci, cl[i]? = some (some ci) → cl[j]? = some none →
      ByPrecedence.Less env cl i j w = some (true, w)) ∧
    ∃ out w', stableSort env cl w = some (out, w') ∧ out.Perm cl ∧
      out.Pairwise (fun a b => a = none → b = none) := by
  refine ⟨?_, ?_, ?_⟩
  · intro i j _ _ hi
    simp [ByPrecedence.Less, hi]
  · intro i j ci hi hj
    simp [ByPrecedence.Less, hi, hj]
  · obtain ⟨w1, h1, _⟩ := stableSort_spec env cl w
    refine ⟨_, w1, h1, sortedBy_perm _ cl, ?_⟩
    refine List.Pairwise.imp ?_ (sortedBy_sorted (rankOf env w) cl)
    intro a b hab ha
    subst ha
    rcases b with _ | cb
    · rfl
    · exact absurd hab (Nat.not_le.mpr (rankOf_some_lt env w cb))

theorem C10_nil_sorts_last_witness :
    (stableSort sampleEnv [none, some (sampleChange (some 0) (some 2) false false), none,
        some (sampleChange none none false false)] sampleWorld).map Prod.fst =
      some [some (sampleChange none none false false),
        some (sampleChange (some 0) (some 2) false false), none, none] ∧
    ((∀ i j, i < ([none, some (sampleChange (some 0) (some 2) false false)] :
          ByPrecedence).length →
        j < ([none, some (sampleChange (some 0) (some 2) false false)] : ByPrecedence).length →
        ([none, some (sampleChange (some 0) (some 2) false false)] : ByPrecedence)[i]? =
          some none →
        ByPrecedence.Less sampleEnv [none, some (sampleChange (some 0) (some 2) false false)]
          i j sampleWorld = some (false, sampleWorld)) ∧
      (∀ i j ci, ([none, some (sampleChange (some 0) (some 2) false false)] :
          ByPrecedence)[i]? = some (some ci) →
        ([none, some (sampleChange (some 0) (some 2) false false)] : ByPrecedence)[j]? =
          some none →
        ByPrecedence.Less sampleEnv [none, some (sampleChange (some 0) (some 2) false false)]
          i j sampleWorld = some (true, sampleWorld)) ∧
      ∃ out w', stableSort sampleEnv [none, some (sampleChange (some 0) (some 2) false false)]
          sampleWorld = some (out, w') ∧
        out.Perm [none, some (sampleChange (some 0) (some 2) false false)] ∧
        out.Pairwise (fun a b => a = none → b = none)) :=
  ⟨by decide,
    C10_nil_sorts_last sampleEnv [none, some (sampleChange (some 0) (some 2) false false)]
      sampleWorld⟩

/-! ## The checksum cache -/

/-- C12: `md5Checksum` returns the empty string for a nil descriptor and for every
directory (whatever checksum it stores), and the stored checksum for every
regular file whose stored checksum is not empty; in the three cases the world is
left as it was: nothing is opened, nothing is printed, no descriptor changes. -/
theorem C12_checksum_without_reading (env : Env) (w : World) :
    md5Checksum env none w = some ("", w) ∧
    (∀ a, (w.heap a).IsDir = true → md5Checksum env (some a) w = some ("", w)) ∧
    (∀ a, (w.heap a).IsDir = false → (w.heap a).Md5Checksum ≠ "" →
      md5Checksum env (some a) w = some ((w.heap a).Md5Checksum, w)) := by
  refine ⟨rfl, ?_, ?_⟩
  · intro a hd
    simp [md5Checksum, hd]
  · intro a hd hm
    simp [md5Checksum, hd, hm]

theorem C12_checksum_without_reading_witness :
    (sampleWorld.heap 7).IsDir = true ∧ (sampleWorld.heap 7).Md5Checksum = "d" ∧
    md5Checksum sampleEnv (some 7) sampleWorld = some ("", sampleWorld) ∧
    md5Checksum sampleEnv (some 2) sampleWorld = some ("y", sampleWorld) ∧
    md5Checksum sampleEnv none sampleWorld = some ("", sampleWorld) :=
  ⟨rfl, rfl, (C12_checksum_without_reading sampleEnv sampleWorld).2.1 7 rfl,
    (C12_checksum_without_reading sampleEnv sampleWorld).2.2 2 rfl (by decide),
    (C12_checksum_without_reading sampleEnv sampleWorld).1⟩

theorem md5Checksum_unreadable (env : Env) (w : World) (a : Nat)
    (hreg : (w.heap a).IsDir = false) (hempty : (w.heap a).Md5Checksum = "")
    (hfs : env.fs (w.heap a).BlobAt = ReadResult.openError ∨
      env.fs (w.heap a).BlobAt = ReadResult.readError) :
    md5Checksum env (some a) w = some ("", readWorld env w a) := by
  by_cases hl : (w.heap a).Size > BigFileSize <;> rcases hfs with hfs | hfs <;>
    simp [md5Checksum, File.largeFile, readWorld, hreg, hempty, hl, hfs]

theorem md5Checksum_readable (env : Env) (w : World) (a : Nat) (bytes : List Nat)
    (hreg : (w.heap a).IsDir = false) (hempty : (w.heap a).Md5Checksum = "")
    (hfs : env.fs (w.heap a).BlobAt = ReadResult.content bytes) :
    md5Checksum env (some a) w = some (hexString (env.md5sum bytes),
      if (w.heap a).CacheChecksum then
        { readWorld env w a with
          heap := storeChecksum w.heap a (hexString (env.md5sum bytes)) }
      else readWorld env w a) := by
  by_cases hl : (w.heap a).Size > BigFileSize <;>
    by_cases hc : (w.heap a).CacheChecksum = true <;>
    simp [md5Checksum, File.largeFile, readWorld, hreg, hempty, hl, hfs, hc]

/-- C13: for a regular file without a stored checksum, `md5Checksum` returns a
string and a world such that: if the content is readable the string is the hex
digest of the content, and the descriptor then stores that digest when
`CacheChecksum` is set and still stores the empty string when it is unset; if
the content cannot be opened or read the string is empty and the descriptor is
as before; in every case the descriptor differs from what it was in
`Md5Checksum` at most, and every other descriptor is as before. -/
theorem C13_checksum_caching (env : Env) (w : World) (a : Nat)
    (hreg : (w.heap a).IsDir = false) (hempty : (w.heap a).Md5Checksum = "") :
    ∃ sum w', md5Checksum env (some a) w = some (sum, w') ∧
      (∀ bytes, env.fs (w.heap a).BlobAt = ReadResult.content bytes →
        sum = hexString (env.md5sum bytes) ∧
        ((w.heap a).CacheChecksum = true → (w'.heap a).Md5Checksum = sum) ∧
        ((w.heap a).CacheChecksum = false → (w'.heap a).Md5Checksum = "")) ∧
      (env.fs (w.heap a).BlobAt = ReadResult.openError ∨
          env.fs (w.heap a).BlobAt = ReadResult.readError →
        sum = "" ∧ w'.heap a = w.heap a) ∧
      w'.heap a = { w.heap a with Md5Checksum := (w'.heap a).Md5Checksum } ∧
      (∀ p, p ≠ a → w'.heap p = w.heap p) := by
  cases hfs : env.fs (w.heap a).BlobAt with
  | openError =>
    refine ⟨"", readWorld env w a,
      md5Checksum_unreadable env w a hreg hempty (Or.inl hfs), ?_, ?_, ?_, ?_⟩
    · intro bytes hb; cases hb
    · intro _; exact ⟨rfl, rfl⟩
    · simp [readWorld]
    · intro p _; rfl
  | readError =>
    refine ⟨"", readWorld env w a,
      md5Checksum_unreadable env w a hreg hempty (Or.inr hfs), ?_, ?_, ?_, ?_⟩
    · intro bytes hb; cases hb
    · intro _; exact ⟨rfl, rfl⟩
    · simp [readWorld]
    · intro p _; rfl
  | content b =>
    refine ⟨_, _, md5Checksum_readable env w a b hreg hempty hfs, ?_, ?_, ?_, ?_⟩
    · intro bytes hb
      cases hb
      refine ⟨rfl, ?_, ?_⟩
      · intro hc; simp [hc, storeChecksum]
      · intro hc; simp [hc, readWorld, hempty]
    · intro h; rcases h with h | h <;> cases h
    · by_cases hc : (w.heap a).CacheChecksum = true
      · simp [hc, storeChecksum]
      · rw [if_neg hc]; rfl
    · intro p hp
      by_cases hc : (w.heap a).CacheChecksum = true
      · simp [hc, storeChecksum, hp]
      · simp [hc, readWorld]

theorem C13_checksum_caching_witness :
    (sampleWorld.heap 6).IsDir = false ∧ (sampleWorld.heap 6).Md5Checksum = "" ∧
    (sampleWorld.heap 6).CacheChecksum = true ∧
    sampleEnv.fs (sampleWorld.heap 6).BlobAt = ReadResult.content [1, 2, 3] ∧
    (md5Checksum sampleEnv (some 6) sampleWorld).map
        (fun r => (r.1, (r.2.heap 6).Md5Checksum)) =
      some ("03030303030303030303030303030303", "03030303030303030303030303030303") ∧
    (md5Checksum sampleEnv (some 8) sampleWorld).map
        (fun r => (r.1, (r.2.heap 8).Md5Checksum)) =
      some ("03030303030303030303030303030303", "") ∧
    ∃ sum w', md5Checksum sampleEnv (some 6) sampleWorld = some (sum, w') ∧
      (∀ bytes, sampleEnv.fs (sampleWorld.heap 6).BlobAt = ReadResult.content bytes →
        sum = hexString (sampleEnv.md5sum bytes) ∧
        ((sampleWorld.heap 6).CacheChecksum = true → (w'.heap 6).Md5Checksum = sum) ∧
        ((sampleWorld.heap 6).CacheChecksum = false → (w'.heap 6).Md5Checksum = "")) ∧
      (sampleEnv.fs (sampleWorld.heap 6).BlobAt = ReadResult.openError ∨
          sampleEnv.fs (sampleWorld.heap 6).BlobAt = ReadResult.readError →
        sum = "" ∧ w'.heap 6 = sampleWorld.heap 6) ∧
      w'.heap 6 = { sampleWorld.heap 6 with Md5Checksum := (w'.heap 6).Md5Checksum } ∧
      (∀ p, p ≠ 6 → w'.heap p = sampleWorld.heap p) :=
  ⟨rfl, rfl, rfl, rfl, by decide, by decide,
    C13_checksum_caching sampleEnv sampleWorld 6 rfl rfl⟩

/-! ## The difference classifier -/

theorem differencesOf_present (env : Env) (w : World) (s d : Nat) :
    differencesOf env w (some s) (some d) =
      maskOf (decide ((w.heap s).Size ≠ (w.heap d).Size))
        (decide ((w.heap s).ModTime ≠ (w.heap d).ModTime))
        (decide ((w.heap s).IsDir ≠ (w.heap d).IsDir))
        (decide (checksumOf env w (some s) ≠ checksumOf env w (some d))) := by
  simp only [differencesOf, maskOf, decide_eq_true_eq, ne_eq]

theorem maskOf_bits :
    ∀ size modTime dirType checksum : Bool,
      (maskOf size modTime dirType checksum &&& DifferSize ≠ 0 ↔ size = true) ∧
      (maskOf size modTime dirType checksum &&& DifferModTime ≠ 0 ↔ modTime = true) ∧
      (maskOf size modTime dirType checksum &&& DifferDirType ≠ 0 ↔ dirType = true) ∧
      (maskOf size modTime dirType checksum &&& DifferMd5Checksum ≠ 0 ↔ checksum = true) ∧
      maskOf size modTime dirType checksum &&& DifferNone = DifferNone ∧
      maskOf size modTime dirType checksum &&&
        (DifferNone ||| DifferDirType ||| DifferMd5Checksum ||| DifferModTime ||| DifferSize) =
          maskOf size modTime dirType checksum ∧
      (maskOf size modTime dirType checksum = DifferNone ↔
        size = false ∧ modTime = false ∧ dirType = false ∧ checksum = false) := by
  decide

/-- C14: when at least one of the two descriptors is nil, `fileDifferences`
returns the mask with the four difference bits set, for which `checksumDiffers`,
`dirTypeDiffers` and `modTimeDiffers` are true, and leaves the world as it was:
no descriptor is read or changed, nothing is opened, no checksum is computed. -/
theorem C14_absent_side_all_bits (env : Env) (src dest : Option Nat) (w : World)
    (habsent : src = none ∨ dest = none) :
    ∃ mask, fileDifferences env src dest w = some (mask, w) ∧
      mask = DifferSize ||| DifferModTime ||| DifferDirType ||| DifferMd5Checksum ∧
      mask &&& DifferSize ≠ 0 ∧ mask &&& DifferModTime ≠ 0 ∧
      mask &&& DifferDirType ≠ 0 ∧ mask &&& DifferMd5Checksum ≠ 0 ∧
      checksumDiffers mask = true ∧ dirTypeDiffers mask = true ∧
      modTimeDiffers mask = true := by
  refine ⟨DifferMd5Checksum ||| DifferSize ||| DifferModTime ||| DifferDirType, ?_,
    by decide, by decide, by decide, by decide, by decide, by decide, by decide, by decide⟩
  rcases src with _ | s <;> rcases dest with _ | d
  · rfl
  · rfl
  · rfl
  · rcases habsent with h | h <;> cases h

theorem C14_absent_side_all_bits_witness :
    ((some 6 : Option Nat) = none ∨ (none : Option Nat) = none) ∧
    ∃ mask, fileDifferences sampleEnv (some 6) none sampleWorld = some (mask, sampleWorld) ∧
      mask = DifferSize ||| DifferModTime ||| DifferDirType ||| DifferMd5Checksum ∧
      mask &&& DifferSize ≠ 0 ∧ mask &&& DifferModTime ≠ 0 ∧
      mask &&& DifferDirType ≠ 0 ∧ mask &&& DifferMd5Checksum ≠ 0 ∧
      checksumDiffers mask = true ∧ dirTypeDiffers mask = true ∧
      modTimeDiffers mask = true :=
  ⟨Or.inr rfl, C14_absent_side_all_bits sampleEnv (some 6) none sampleWorld (Or.inr rfl)⟩

/-- C15 as stated fails: a directory against a regular file that stores a
checksum, of equal size and modification time, gets the `DifferMd5Checksum` bit
although the two are not both non-directories. -/
theorem C15_directory_against_file_counterexample :
    (sampleWorld.heap 3).IsDir = true ∧ (sampleWorld.heap 0).IsDir = false ∧
      (sampleWorld.heap 0).Md5Checksum = "x" ∧
      (fileDifferences sampleEnv (some 3) (some 0) sampleWorld).map Prod.fst =
        some (DifferNone ||| DifferDirType ||| DifferMd5Checksum) ∧
      (fileDifferences sampleEnv (some 3) (some 0) sampleWorld).map
        (fun r => decide (r.1 &&& DifferMd5Checksum ≠ 0)) = some true ∧
      ¬ ((sampleWorld.heap 3).IsDir = false ∧ (sampleWorld.heap 0).IsDir = false) := by
  decide

/-- C15, amended: for two present descriptors `fileDifferences` returns a mask in
which the `DifferSize` bit is set exactly when the sizes differ, the
`DifferModTime` bit exactly when the modification times differ, the
`DifferDirType` bit exactly when one is a directory and the other is not, and
the `DifferMd5Checksum` bit exactly when the two strings given by `md5Checksum`
differ (a directory gives the empty string); the mask has no bit outside the
five constants, always has the bit `DifferNone`, and is exactly `DifferNone`
when the four comparisons agree. -/
theorem C15_mask_of_present_pair (env : Env) (s d : Nat) (w : World) :
    ∃ mask w' sum1 w1 sum2 w2,
      fileDifferences env (some s) (some d) w = some (mask, w') ∧
      md5Checksum env (some s) w = some (sum1, w1) ∧
      md5Checksum env (some d) w = some (sum2, w2) ∧
      (mask &&& DifferSize ≠ 0 ↔ (w.heap s).Size ≠ (w.heap d).Size) ∧
      (mask &&& DifferModTime ≠ 0 ↔ (w.heap s).ModTime ≠ (w.heap d).ModTime) ∧
      (mask &&& DifferDirType ≠ 0 ↔ (w.heap s).IsDir ≠ (w.heap d).IsDir) ∧
      (mask &&& DifferMd5Checksum ≠ 0 ↔ sum1 ≠ sum2) ∧
      mask &&& DifferNone = DifferNone ∧
      mask &&& (DifferNone ||| DifferDirType ||| DifferMd5Checksum ||| DifferModTime |||
        DifferSize) = mask ∧
      (mask = DifferNone ↔ (w.heap s).Size = (w.heap d).Size ∧
        (w.heap s).ModTime = (w.heap d).ModTime ∧ (w.heap s).IsDir = (w.heap d).IsDir ∧
        sum1 = sum2) := by
  obtain ⟨w', h, _⟩ := fileDifferences_spec env (some s) (some d) w
  obtain ⟨w1, h1, _⟩ := md5Checksum_spec env (some s) w
  obtain ⟨w2, h2, _⟩ := md5Checksum_spec env (some d) w
  rw [differencesOf_present] at h
  obtain ⟨b1, b2, b3, b4, b5, b6, b7⟩ := maskOf_bits
    (decide ((w.heap s).Size ≠ (w.heap d).Size))
    (decide ((w.heap s).ModTime ≠ (w.heap d).ModTime))
    (decide ((w.heap s).IsDir ≠ (w.heap d).IsDir))
    (decide (checksumOf env w (some s) ≠ checksumOf env w (some d)))
  refine ⟨_, w', _, w1, _, w2, h, h1, h2, ?_, ?_, ?_, ?_, b5, b6, ?_⟩
  · rw [b1, decide_eq_true_eq]
  · rw [b2, decide_eq_true_eq]
  · rw [b3, decide_eq_true_eq]
  · rw [b4, decide_eq_true_eq]
  · rw [b7]
    simp only [decide_eq_false_iff_not, ne_eq, not_not]

/-! ## Presence checks -/

/-- C16 as stated fails: `sameFile`, `sameFileTillChecksum` and
`File.sameDirType` read a field of a nil descriptor when the source (or the
receiver) is nil and the other side is present. -/
theorem C16_unguarded_comparisons_counterexample :
    sameFile sampleWorld none (some 0) = none ∧
      sameFile sampleWorld (some 0) none = none ∧
      (sameFileTillChecksum sampleEnv none (some 0) sampleWorld).isSome = false ∧
      File.sameDirType sampleWorld none (some 0) = none := by
  decide

/-- C16, amended: `md5Checksum` and `fileDifferences` test for nil themselves and
return on every input, and `Change.op`, which tests both sides before it calls
`sameFileTillChecksum`, returns for every change; `File.sameDirType` tests only
`other` and returns exactly when the receiver is present or `other` is nil;
`sameFile` and `sameFileTillChecksum` have no test of their own and return
exactly when both descriptors are present. -/
theorem C16_presence_checks (env : Env) (w : World) (src dest : Option Nat) (c : Change) :
    (∃ r, md5Checksum env src w = some r) ∧
    (∃ r, fileDifferences env src dest w = some r) ∧
    (∃ r, Change.op env (some c) w = some r) ∧
    ((File.sameDirType w src dest).isSome = true ↔ src ≠ none ∨ dest = none) ∧
    ((sameFile w src dest).isSome = true ↔ src ≠ none ∧ dest ≠ none) ∧
    ((sameFileTillChecksum env src dest w).isSome = true ↔ src ≠ none ∧ dest ≠ none) := by
  refine ⟨?_, ?_, ?_, ?_, ?_, ?_⟩
  · obtain ⟨w1, h1, _⟩ := md5Checksum_spec env src w
    exact ⟨_, h1⟩
  · obtain ⟨w1, h1, _⟩ := fileDifferences_spec env src dest w
    exact ⟨_, h1⟩
  · obtain ⟨w1, h1, _⟩ := op_spec env c w
    exact ⟨_, h1⟩
  · rcases src with _ | s <;> rcases dest with _ | d <;> simp [File.sameDirType]
  · rcases src with _ | s <;> rcases dest with _ | d
    · simp [sameFile]
    · simp [sameFile]
    · simp [sameFile]
    · simp only [sameFile]
      split <;> [skip; split] <;> simp
  · rcases src with _ | s <;> rcases dest with _ | d
    · simp [sameFileTillChecksum, sameFile]
    · simp [sameFileTillChecksum, sameFile]
    · simp [sameFileTillChecksum, sameFile]
    · obtain ⟨w1, h1, _⟩ := sameFileTillChecksum_spec env s d w
      simp [h1]

/-! ## Hashing only when needed -/

theorem op_without_hash (env : Env) (c : Change) (w : World)
    (hskip : c.Src = none ∨ c.Dest = none ∨
      ∃ s d, c.Src = some s ∧ c.Dest = some d ∧
        ((w.heap s).IsDir = true ∨ (w.heap d).IsDir = true ∨
          (w.heap s).Size ≠ (w.heap d).Size ∨ (w.heap s).ModTime ≠ (w.heap d).ModTime)) :
    Change.op env (some c) w = some (preOp env w c, w) := by
  rcases hs : c.Src with _ | s <;> rcases hd : c.Dest with _ | d
  · simp [Change.op, preOp, hs, hd]
  · simp [Change.op, preOp, hs, hd]
  · simp [Change.op, preOp, hs, hd]
  · rcases hskip with h | h | ⟨s', d', hs', hd', h⟩
    · rw [hs] at h; cases h
    · rw [hd] at h; cases h
    · rw [hs] at hs'; rw [hd] at hd'
      cases hs'; cases hd'
      by_cases hdir : (w.heap s).IsDir = (w.heap d).IsDir
      · by_cases hsd : (w.heap s).IsDir = true
        · have hdd : (w.heap d).IsDir = true := by rw [← hdir]; exact hsd
          simp [Change.op, preOp, hs, hd, hsd, hdd]
        · have hsd' : (w.heap s).IsDir = false := by simpa using hsd
          have hdd : (w.heap d).IsDir = false := by rw [← hdir]; exact hsd'
          rcases h with h | h | h | h
          · exact absurd h hsd
          · rw [hdd] at h; cases h
          · simp [Change.op, preOp, hs, hd, hsd', hdd, sameFileTillChecksum, sameFile, h]
          · simp [Change.op, preOp, hs, hd, hsd', hdd, sameFileTillChecksum, sameFile, h]
      · simp [Change.op, preOp, hs, hd, hdir]

/-- C17: when `Force` is set, or a side is nil, or a side is a directory, or the
sizes or the modification times differ, `Change.Op` returns its label and leaves
the world exactly as it was: no descriptor changes, no path is opened, nothing
is printed. A checksum is therefore computed only when `Force` is unset and both
sides are present regular files of equal size and modification time. -/
theorem C17_hash_only_when_needed (env : Env) (c : Change) (w : World)
    (hskip : c.Force = true ∨ c.Src = none ∨ c.Dest = none ∨
      ∃ s d, c.Src = some s ∧ c.Dest = some d ∧
        ((w.heap s).IsDir = true ∨ (w.heap d).IsDir = true ∨
          (w.heap s).Size ≠ (w.heap d).Size ∨ (w.heap s).ModTime ≠ (w.heap d).ModTime)) :
    ∃ op, Change.Op env (some c) w = some (op, w) := by
  by_cases hf : c.Force = true
  · exact ⟨OpAdd, by simp [Change.Op, hf]⟩
  · have h := op_without_hash env c w (hskip.resolve_left hf)
    refine ⟨opOf env w c, ?_⟩
    simp only [Change.Op, hf, h, opOf]
    by_cases hq : preOp env w c ≠ OpAdd ∧ c.NoClobber = true
    · simp [hq]
    · simp [hq]

theorem C17_hash_only_when_needed_witness :
    (sampleWorld.heap 6).Md5Checksum = "" ∧ (sampleWorld.heap 6).Size = 10 ∧
    (sampleWorld.heap 9).Size = 11 ∧
    ∃ op, Change.Op sampleEnv (some (sampleChange (some 6) (some 9) false false))
        sampleWorld = some (op, sampleWorld) :=
  ⟨rfl, rfl, rfl,
    C17_hash_only_when_needed sampleEnv (sampleChange (some 6) (some 9) false false)
      sampleWorld (Or.inr (Or.inr (Or.inr ⟨6, 9, rfl, rfl, Or.inr (Or.inr (Or.inl
        (by decide)))⟩)))⟩

/-! ## Running the classification twice -/

theorem md5Checksum_dir (env : Env) (w : World) (a : Nat) (hd : (w.heap a).IsDir = true) :
    md5Checksum env (some a) w = some ("", w) := by
  simp [md5Checksum, hd]

theorem md5Checksum_stored (env : Env) (w : World) (a : Nat)
    (hd : (w.heap a).IsDir = false) (hm : (w.heap a).Md5Checksum ≠ "") :
    md5Checksum env (some a) w = some ((w.heap a).Md5Checksum, w) := by
  simp [md5Checksum, hd, hm]

theorem storeChecksum_same (heap : Nat → File) (a : Nat) :
    storeChecksum heap a (heap a).Md5Checksum = heap := by
  funext p
  by_cases hp : p = a
  · subst hp; simp [storeChecksum]
  · simp [storeChecksum, hp]

theorem md5Checksum_settles (env : Env) (w w1 : World) (a : Nat) (sum : String)
    (h : md5Checksum env (some a) w = some (sum, w1)) : Settled env w1.heap a := by
  by_cases hd : (w.heap a).IsDir = true
  · rw [md5Checksum_dir env w a hd] at h
    cases h
    exact Or.inl hd
  · have hd' : (w.heap a).IsDir = false := by simpa using hd
    by_cases hm : (w.heap a).Md5Checksum = ""
    · cases hfs : env.fs (w.heap a).BlobAt with
      | openError =>
        rw [md5Checksum_unreadable env w a hd' hm (Or.inl hfs)] at h
        cases h
        exact Or.inr (Or.inr (Or.inr (Or.inl hfs)))
      | readError =>
        rw [md5Checksum_unreadable env w a hd' hm (Or.inr hfs)] at h
        cases h
        exact Or.inr (Or.inr (Or.inr (Or.inr (Or.inl hfs))))
      | content b =>
        rw [md5Checksum_readable env w a b hd' hm hfs] at h
        by_cases hc : (w.heap a).CacheChecksum = true
        · rw [if_pos hc] at h
          cases h
          by_cases hx : hexString (env.md5sum b) = ""
          · refine Or.inr (Or.inr (Or.inr (Or.inr (Or.inr ⟨b, ?_, hx⟩))))
            simpa [storeChecksum] using hfs
          · refine Or.inr (Or.inl ?_)
            simpa [storeChecksum] using hx
        · rw [if_neg hc] at h
          cases h
          exact Or.inr (Or.inr (Or.inl (by simpa [readWorld] using hc)))
    · rw [md5Checksum_stored env w a hd' hm] at h
      cases h
      exact Or.inr (Or.inl hm)

theorem settled_heap (env : Env) (w w1 : World) (a : Nat) (sum : String)
    (hs : Settled env w.heap a) (h : md5Checksum env (some a) w = some (sum, w1)) :
    w1.heap = w.heap := by
  by_cases hd : (w.heap a).IsDir = true
  · rw [md5Checksum_dir env w a hd] at h
    cases h; rfl
  · have hd' : (w.heap a).IsDir = false := by simpa using hd
    by_cases hm : (w.heap a).Md5Checksum = ""
    · cases hfs : env.fs (w.heap a).BlobAt with
      | openError =>
        rw [md5Checksum_unreadable env w a hd' hm (Or.inl hfs)] at h
        cases h; rfl
      | readError =>
        rw [md5Checksum_unreadable env w a hd' hm (Or.inr hfs)] at h
        cases h; rfl
      | content b =>
        rw [md5Checksum_readable env w a b hd' hm hfs] at h
        by_cases hc : (w.heap a).CacheChecksum = true
        · rw [if_pos hc] at h
          cases h
          rcases hs with h1 | h1 | h1 | h1 | h1 | ⟨b', hb', hx⟩
          · exact absurd h1 hd
          · exact absurd hm h1
          · rw [hc] at h1; cases h1
          · rw [hfs] at h1; cases h1
          · rw [hfs] at h1; cases h1
          · rw [hfs] at hb'
            cases hb'
            show storeChecksum w.heap a (hexString (env.md5sum b)) = w.heap
            rw [hx, ← hm]
            exact storeChecksum_same w.heap a
        · rw [if_neg hc] at h
          cases h; rfl
    · rw [md5Checksum_stored env w a hd' hm] at h
      cases h; rfl

theorem settled_ext (env : Env) (w w1 : World) (a : Nat) (he : CacheExt env w w1)
    (hs : Settled env w.heap a) : Settled env w1.heap a := by
  rcases he a with h | ⟨hd, hm, b, hb, hw⟩
  · unfold Settled
    rw [h]
    exact hs
  · rcases hs with h1 | h1 | h1 | h1 | h1 | ⟨b', hb', hx⟩
    · rw [hd] at h1; cases h1
    · exact absurd hm h1
    · exact Or.inr (Or.inr (Or.inl (by rw [hw]; exact h1)))
    · rw [hb] at h1; cases h1
    · rw [hb] at h1; cases h1
    · refine Or.inr (Or.inr (Or.inr (Or.inr (Or.inr ⟨b', ?_, hx⟩))))
      rw [hw]; exact hb'

theorem md5Checksum_ext (env : Env) (w w1 : World) (f : Option Nat) (sum : String)
    (h : md5Checksum env f w = some (sum, w1)) :
    sum = checksumOf env w f ∧ CacheExt env w w1 := by
  obtain ⟨w', h', e'⟩ := md5Checksum_spec env f w
  rw [h] at h'
  cases h'
  exact ⟨rfl, e'⟩

theorem hash_pair_twice (env : Env) (s d : Nat) (w w1 w2 w3 w4 : World)
    (c1 c2 c3 c4 : String)
    (h1 : md5Checksum env (some s) w = some (c1, w1))
    (h2 : md5Checksum env (some d) w1 = some (c2, w2))
    (h3 : md5Checksum env (some s) w2 = some (c3, w3))
    (h4 : md5Checksum env (some d) w3 = some (c4, w4)) :
    w4.heap = w2.heap := by
  have s1 : Settled env w1.heap s := md5Checksum_settles env w w1 s c1 h1
  have s2 : Settled env w2.heap s := settled_ext env w1 w2 s (md5Checksum_ext env w1 w2 _ c2 h2).2 s1
  have e3 : w3.heap = w2.heap := settled_heap env w2 w3 s c3 s2 h3
  have d2 : Settled env w2.heap d := md5Checksum_settles env w1 w2 d c2 h2
  have d3 : Settled env w3.heap d := by rw [e3]; exact d2
  have e4 : w4.heap = w3.heap := settled_heap env w3 w4 d c4 d3 h4
  rw [e4, e3]

theorem CacheExt.fields {env : Env} {w1 w2 : World} (h : CacheExt env w1 w2) (p : Nat) :
    (w2.heap p).IsDir = (w1.heap p).IsDir ∧ (w2.heap p).Size = (w1.heap p).Size ∧
      (w2.heap p).ModTime = (w1.heap p).ModTime := by
  rcases h p with h | ⟨_, _, _, _, hw⟩ <;> simp [*]

theorem differencesOf_ext {env : Env} {w1 w2 : World} (h : CacheExt env w1 w2)
    (src dest : Option Nat) : differencesOf env w2 src dest = differencesOf env w1 src dest := by
  rcases src with _ | s <;> rcases dest with _ | d
  · rfl
  · rfl
  · rfl
  · simp only [differencesOf, (h.fields s).1, (h.fields s).2.1, (h.fields s).2.2,
      (h.fields d).1, (h.fields d).2.1, (h.fields d).2.2, checksumOf_ext h]

theorem Op_with_hash (env : Env) (c : Change) (w : World) (s d : Nat)
    (hforce : c.Force = false) (hsrc : c.Src = some s) (hdest : c.Dest = some d)
    (hsreg : (w.heap s).IsDir = false) (hdreg : (w.heap d).IsDir = false)
    (hsize : (w.heap s).Size = (w.heap d).Size)
    (hmtime : (w.heap s).ModTime = (w.heap d).ModTime) :
    ∃ c1 w1 c2 w2, md5Checksum env (some s) w = some (c1, w1) ∧
      md5Checksum env (some d) w1 = some (c2, w2) ∧
      Change.Op env (some c) w = some (opOf env w c, w2) := by
  obtain ⟨w1, h1, _⟩ := md5Checksum_spec env (some s) w
  obtain ⟨w2, h2, _⟩ := md5Checksum_spec env (some d) w1
  obtain ⟨w', h', _⟩ := Op_spec env c w
  refine ⟨_, w1, _, w2, h1, h2, ?_⟩
  have hx : (Change.Op env (some c) w).map (fun r => r.2) = some w2 := by
    simp only [Change.Op, Change.op, hforce, hsrc, hdest, sameFileTillChecksum, sameFile,
      hsreg, hdreg, hsize, hmtime, h1, h2]
    by_cases hc : checksumOf env w (some s) = checksumOf env w1 (some d) <;>
      by_cases hn : c.NoClobber = true <;> simp [hc, hn, OpMod, OpNone, OpAdd]
  rw [h'] at hx
  simp only [Option.map_some', Option.some.injEq] at hx
  rw [h', hx]

theorem fileDifferences_with_hash (env : Env) (w : World) (s d : Nat) :
    ∃ c1 w1 c2 w2, md5Checksum env (some s) w = some (c1, w1) ∧
      md5Checksum env (some d) w1 = some (c2, w2) ∧
      fileDifferences env (some s) (some d) w =
        some (differencesOf env w (some s) (some d), w2) := by
  obtain ⟨w1, h1, _⟩ := md5Checksum_spec env (some s) w
  obtain ⟨w2, h2, _⟩ := md5Checksum_spec env (some d) w1
  obtain ⟨w', h', _⟩ := fileDifferences_spec env (some s) (some d) w
  refine ⟨_, w1, _, w2, h1, h2, ?_⟩
  have hx : (fileDifferences env (some s) (some d) w).map (fun r => r.2) = some w2 := by
    simp only [fileDifferences, h1, h2]
    split <;> rfl
  rw [h'] at hx
  simp only [Option.map_some', Option.some.injEq] at hx
  rw [h', hx]

/-- C11: classification is idempotent. `Change.Op` run on the world left by a
first run returns the label of the first run and leaves every descriptor, cached
checksums included, as the first run left it; the same holds for
`fileDifferences` and its mask. -/
theorem C11_classification_idempotent (env : Env) (c : Change) (src dest : Option Nat)
    (w : World) :
    (∃ op w1 w2, Change.Op env (some c) w = some (op, w1) ∧
      Change.Op env (some c) w1 = some (op, w2) ∧ w2.heap = w1.heap) ∧
    (∃ mask w1 w2, fileDifferences env src dest w = some (mask, w1) ∧
      fileDifferences env src dest w1 = some (mask, w2) ∧ w2.heap = w1.heap) := by
  constructor
  · by_cases hskip : c.Force = true ∨ c.Src = none ∨ c.Dest = none ∨
        ∃ s d, c.Src = some s ∧ c.Dest = some d ∧
          ((w.heap s).IsDir = true ∨ (w.heap d).IsDir = true ∨
            (w.heap s).Size ≠ (w.heap d).Size ∨ (w.heap s).ModTime ≠ (w.heap d).ModTime)
    · have hrun : Change.Op env (some c) w = some (opOf env w c, w) := by
        by_cases hf : c.Force = true
        · simp [Change.Op, opOf, hf]
        · have h := op_without_hash env c w (hskip.resolve_left hf)
          simp only [Change.Op, hf, h, opOf]
          by_cases hq : preOp env w c ≠ OpAdd ∧ c.NoClobber = true
          · simp [hq]
          · simp [hq]
      exact ⟨_, w, w, hrun, hrun, rfl⟩
    · simp only [not_or, not_exists, not_and] at hskip
      obtain ⟨hf, hs, hd, hrest⟩ := hskip
      obtain ⟨s, hs'⟩ := Option.ne_none_iff_exists'.mp hs
      obtain ⟨d, hd'⟩ := Option.ne_none_iff_exists'.mp hd
      have hk := hrest s d hs' hd'
      have hf' : c.Force = false := by simpa using hf
      have k1 : (w.heap s).IsDir = false := by simpa using hk.1
      have k2 : (w.heap d).IsDir = false := by simpa using hk.2.1
      have k3 : (w.heap s).Size = (w.heap d).Size := by simpa using hk.2.2.1
      have k4 : (w.heap s).ModTime = (w.heap d).ModTime := by simpa using hk.2.2.2
      obtain ⟨c1, w1, c2, w2, h1, h2, hop⟩ := Op_with_hash env c w s d hf' hs' hd' k1 k2 k3 k4
      have e12 : CacheExt env w w2 :=
        (md5Checksum_ext env w w1 _ c1 h1).2.trans (md5Checksum_ext env w1 w2 _ c2 h2).2
      have fs := e12.fields s
      have fd := e12.fields d
      obtain ⟨c3, w3, c4, w4, h3, h4, hop2⟩ := Op_with_hash env c w2 s d hf' hs' hd'
        (by rw [fs.1]; exact k1) (by rw [fd.1]; exact k2)
        (by rw [fs.2.1, fd.2.1]; exact k3) (by rw [fs.2.2, fd.2.2]; exact k4)
      rw [opOf_ext e12] at hop2
      exact ⟨_, w2, w4, hop, hop2, hash_pair_twice env s d w w1 w2 w3 w4 c1 c2 c3 c4 h1 h2 h3 h4⟩
  · rcases src with _ | s
    · exact ⟨_, w, w, rfl, rfl, rfl⟩
    · rcases dest with _ | d
      · exact ⟨_, w, w, rfl, rfl, rfl⟩
      · obtain ⟨c1, w1, c2, w2, h1, h2, hrun⟩ := fileDifferences_with_hash env w s d
        have e12 : CacheExt env w w2 :=
          (md5Checksum_ext env w w1 _ c1 h1).2.trans (md5Checksum_ext env w1 w2 _ c2 h2).2
        obtain ⟨c3, w3, c4, w4, h3, h4, hrun2⟩ := fileDifferences_with_hash env w2 s d
        rw [differencesOf_ext e12] at hrun2
        exact ⟨_, w2, w4, hrun, hrun2,
          hash_pair_twice env s d w w1 w2 w3 w4 c1 c2 c3 c4 h1 h2 h3 h4⟩

/-! ## `Less` as an ordering -/

theorem Less_label (env : Env) (cl : ByPrecedence) (i j : Nat) (w : World) :
    (ByPrecedence.Less env cl i j w).map Prod.fst = lessOf env w cl i j := by
  rcases hi : cl[i]? with _ | a
  · simp [ByPrecedence.Less, lessOf, hi]
  · rcases a with _ | ci
    · simp [ByPrecedence.Less, lessOf, hi]
    · rcases hj : cl[j]? with _ | b
      · simp [ByPrecedence.Less, lessOf, hi, hj]
      · obtain ⟨w1, h1, _⟩ := Less_spec env cl i j w (some ci) b hi hj
        rw [h1]
        simp [lessOf, hi, hj]

theorem Less_ext (env : Env) (cl : ByPrecedence) (i j : Nat) (w w1 : World) (b : Bool)
    (h : ByPrecedence.Less env cl i j w = some (b, w1)) : CacheExt env w w1 := by
  rcases hi : cl[i]? with _ | a
  · simp [ByPrecedence.Less, hi] at h
  · rcases a with _ | ci
    · simp [ByPrecedence.Less, hi] at h
      rw [← h.2]
      exact CacheExt.refl env w
    · rcases hj : cl[j]? with _ | c
      · simp [ByPrecedence.Less, hi, hj] at h
      · obtain ⟨w2, h2, e2⟩ := Less_spec env cl i j w (some ci) c hi hj
        rw [h] at h2
        cases h2
        exact e2

theorem lessOf_ext {env : Env} {w1 w2 : World} (h : CacheExt env w1 w2) (cl : ByPrecedence)
    (i j : Nat) : lessOf env w2 cl i j = lessOf env w1 cl i j := by
  simp only [lessOf, rankOf_ext h]

theorem lessOf_valid (env : Env) (w : World) (cl : ByPrecedence) (i j : Nat)
    (a b : Option Change) (hi : cl[i]? = some a) (hj : cl[j]? = some b) :
    lessOf env w cl i j = some (decide (rankOf env w a < rankOf env w b)) := by
  rcases a with _ | ci
  · have hle : ¬ (rankOf env w none < rankOf env w b) :=
      Nat.not_lt.mpr (rankOf_le env w b)
    simp [lessOf, hi, hle]
  · simp [lessOf, hi, hj]

theorem lessOf_true (env : Env) (w : World) (cl : ByPrecedence) (i j : Nat)
    (h : lessOf env w cl i j = some true) :
    ∃ a b, cl[i]? = some a ∧ cl[j]? = some b ∧ rankOf env w a < rankOf env w b := by
  rcases hi : cl[i]? with _ | a
  · simp [lessOf, hi] at h
  · rcases hj : cl[j]? with _ | b
    · rcases a with _ | ci <;> simp [lessOf, hi, hj] at h
    · rw [lessOf_valid env w cl i j a b hi hj] at h
      exact ⟨a, b, rfl, rfl, by simpa using h⟩

theorem rankOf_eq_iff (env : Env) (w : World) (a b : Option Change) :
    rankOf env w a = rankOf env w b ↔
      (a = none ∧ b = none) ∨
      ∃ ca cb, a = some ca ∧ b = some cb ∧
        opPrecedence (opOf env w ca) = opPrecedence (opOf env w cb) := by
  rcases a with _ | ca <;> rcases b with _ | cb
  · simp
  · have hlt := rankOf_some_lt env w cb
    have h4 : rankOf env w none = 4 := rfl
    constructor
    · intro h
      rw [h4] at h
      omega
    · rintro (⟨_, h⟩ | ⟨_, _, h, _⟩) <;> cases h
  · have hlt := rankOf_some_lt env w ca
    have h4 : rankOf env w none = 4 := rfl
    constructor
    · intro h
      rw [h4] at h
      omega
    · rintro (⟨h, _⟩ | ⟨_, _, _, h, _⟩) <;> cases h
  · simp [rankOf]

/-- C19: on the indices of a batch, nil entries allowed, `Less` evaluated in a
world `w` is a strict weak ordering: `Less(i, i)` is false, `Less` is
transitive, being unordered is transitive, and two entries are unordered exactly
when both are nil or both are present with the same precedence rank of their
resolved `Op`; and the answers of `Less` in the world left by any call of `Less`
are those in `w`. -/
theorem C19_Less_strict_weak_order (env : Env) (cl : ByPrecedence) (w : World) :
    (∀ i, i < cl.length → (ByPrecedence.Less env cl i i w).map Prod.fst = some false) ∧
    (∀ i j k, (ByPrecedence.Less env cl i j w).map Prod.fst = some true →
      (ByPrecedence.Less env cl j k w).map Prod.fst = some true →
      (ByPrecedence.Less env cl i k w).map Prod.fst = some true) ∧
    (∀ i j k, i < cl.length → j < cl.length → k < cl.length →
      ((ByPrecedence.Less env cl i j w).map Prod.fst = some false ∧
        (ByPrecedence.Less env cl j i w).map Prod.fst = some false) →
      ((ByPrecedence.Less env cl j k w).map Prod.fst = some false ∧
        (ByPrecedence.Less env cl k j w).map Prod.fst = some false) →
      ((ByPrecedence.Less env cl i k w).map Prod.fst = some false ∧
        (ByPrecedence.Less env cl k i w).map Prod.fst = some false)) ∧
    (∀ i j, i < cl.length → j < cl.length →
      (((ByPrecedence.Less env cl i j w).map Prod.fst = some false ∧
          (ByPrecedence.Less env cl j i w).map Prod.fst = some false) ↔
        ((cl[i]? = some none ∧ cl[j]? = some none) ∨
          ∃ ci cj opi wi opj wj, cl[i]? = some (some ci) ∧ cl[j]? = some (some cj) ∧
            Change.Op env (some ci) w = some (opi, wi) ∧
            Change.Op env (some cj) w = some (opj, wj) ∧
            opPrecedence opi = opPrecedence opj))) ∧
    (∀ i j b w', ByPrecedence.Less env cl i j w = some (b, w') →
      ∀ i' j', (ByPrecedence.Less env cl i' j' w').map Prod.fst =
        (ByPrecedence.Less env cl i' j' w).map Prod.fst) := by
  have hunord : ∀ i j (a b : Option Change), cl[i]? = some a → cl[j]? = some b →
      ((lessOf env w cl i j = some false ∧ lessOf env w cl j i = some false) ↔
        rankOf env w a = rankOf env w b) := by
    intro i j a b hi hj
    rw [lessOf_valid env w cl i j a b hi hj, lessOf_valid env w cl j i b a hj hi]
    simp only [Option.some.injEq, decide_eq_false_iff_not, Nat.not_lt]
    omega
  simp only [Less_label]
  refine ⟨?_, ?_, ?_, ?_, ?_⟩
  · intro i hi
    rw [lessOf_valid env w cl i i _ _ (List.getElem?_eq_getElem hi)
      (List.getElem?_eq_getElem hi)]
    simp
  · intro i j k hij hjk
    obtain ⟨a, b, ha, hb, hab⟩ := lessOf_true env w cl i j hij
    obtain ⟨b', c, hb', hc, hbc⟩ := lessOf_true env w cl j k hjk
    rw [hb] at hb'
    cases hb'
    rw [lessOf_valid env w cl i k a c ha hc]
    simp only [Option.some.injEq, decide_eq_true_eq]
    omega
  · intro i j k hi hj hk hij hjk
    have ha := List.getElem?_eq_getElem hi
    have hb := List.getElem?_eq_getElem hj
    have hc := List.getElem?_eq_getElem hk
    rw [hunord i j _ _ ha hb] at hij
    rw [hunord j k _ _ hb hc] at hjk
    rw [hunord i k _ _ ha hc]
    exact hij.trans hjk
  · intro i j hi hj
    have ha := List.getElem?_eq_getElem hi
    have hb := List.getElem?_eq_getElem hj
    rw [hunord i j _ _ ha hb, rankOf_eq_iff, ha, hb]
    constructor
    · rintro (⟨h1, h2⟩ | ⟨ca, cb, h1, h2, h3⟩)
      · left; rw [h1, h2]; exact ⟨rfl, rfl⟩
      · right
        obtain ⟨wi, hwi, _⟩ := Op_spec env ca w
        obtain ⟨wj, hwj, _⟩ := Op_spec env cb w
        exact ⟨ca, cb, _, wi, _, wj, by rw [h1], by rw [h2], hwi, hwj, h3⟩
    · rintro (⟨h1, h2⟩ | ⟨ca, cb, opi, wi, opj, wj, h1, h2, hwi, hwj, h3⟩)
      · left
        exact ⟨Option.some.inj h1, Option.some.inj h2⟩
      · right
        obtain ⟨wi', hwi', _⟩ := Op_spec env ca w
        obtain ⟨wj', hwj', _⟩ := Op_spec env cb w
        rw [hwi] at hwi'
        rw [hwj] at hwj'
        cases hwi'
        cases hwj'
        exact ⟨ca, cb, Option.some.inj h1, Option.some.inj h2, h3⟩
  · intro i j b w' h i' j'
    exact lessOf_ext (Less_ext env cl i j w w' b h) cl i' j'

/-! ## Resolver and classifier on regular files -/

/-- C20: for two present regular files with `Force` and `NoClobber` unset,
`Change.Op` and `fileDifferences`, both run in the same world, agree:
`Change.Op` returns `OpNone` exactly when the mask is `DifferNone`, and `OpMod`
exactly when the mask has the size, the modification time or the checksum bit;
and when the sizes or the modification times differ `Change.Op` leaves the world
as it was (no checksum is computed), whereas `fileDifferences` always computes
the two checksums: the world it leaves is the one left by `md5Checksum` on the
source followed by `md5Checksum` on the destination. -/
theorem C20_resolver_agrees_with_classifier (env : Env) (c : Change) (w : World) (s d : Nat)
    (hforce : c.Force = false) (hnc : c.NoClobber = false)
    (hsrc : c.Src = some s) (hdest : c.Dest = some d)
    (hsreg : (w.heap s).IsDir = false) (hdreg : (w.heap d).IsDir = false) :
    ∃ op w1 mask w2, Change.Op env (some c) w = some (op, w1) ∧
      fileDifferences env (some s) (some d) w = some (mask, w2) ∧
      (op = OpNone ↔ mask = DifferNone) ∧
      (op = OpMod ↔ (mask &&& DifferSize ≠ 0 ∨ mask &&& DifferModTime ≠ 0 ∨
        mask &&& DifferMd5Checksum ≠ 0)) ∧
      ((w.heap s).Size ≠ (w.heap d).Size ∨ (w.heap s).ModTime ≠ (w.heap d).ModTime →
        w1 = w) ∧
      ∃ sum1 wa sum2, md5Checksum env (some s) w = some (sum1, wa) ∧
        md5Checksum env (some d) wa = some (sum2, w2) := by
  obtain ⟨w1, h1, _⟩ := Op_spec env c w
  obtain ⟨sum1, wa, sum2, w2, ha, hb, h2⟩ := fileDifferences_with_hash env w s d
  rw [Op_plain env c w hforce hnc] at h1
  rw [differencesOf_present] at h2
  have hpre : preOp env w c =
      if (w.heap s).Size = (w.heap d).Size ∧ (w.heap s).ModTime = (w.heap d).ModTime ∧
        checksumOf env w (some s) = checksumOf env w (some d) then OpNone else OpMod := by
    simp [preOp, hsrc, hdest, hsreg, hdreg]
  obtain ⟨b1, b2, _, b4, _, _, b7⟩ := maskOf_bits
    (decide ((w.heap s).Size ≠ (w.heap d).Size))
    (decide ((w.heap s).ModTime ≠ (w.heap d).ModTime))
    (decide ((w.heap s).IsDir ≠ (w.heap d).IsDir))
    (decide (checksumOf env w (some s) ≠ checksumOf env w (some d)))
  refine ⟨_, w1, _, w2, h1, h2, ?_, ?_, ?_, sum1, wa, sum2, ha, hb⟩
  · rw [b7, hpre]
    simp only [decide_eq_false_iff_not, ne_eq, not_not, hsreg, hdreg, true_and]
    split
    · simp [*]
    · rename_i hne
      simp only [OpMod, OpNone]
      constructor
      · intro h; cases h
      · intro h; exact absurd h hne
  · rw [b1, b2, b4, hpre]
    simp only [decide_eq_true_eq, ne_eq]
    split
    · rename_i heq
      simp [heq.1, heq.2.1, heq.2.2, OpMod, OpNone]
    · rename_i hne
      simp only [true_iff]
      by_cases q1 : (w.heap s).Size = (w.heap d).Size
      · by_cases q2 : (w.heap s).ModTime = (w.heap d).ModTime
        · right; right
          intro q3
          exact hne ⟨q1, q2, q3⟩
        · right; left; exact q2
      · left; exact q1
  · intro hdiff
    have hskip : c.Src = none ∨ c.Dest = none ∨
        ∃ s d, c.Src = some s ∧ c.Dest = some d ∧
          ((w.heap s).IsDir = true ∨ (w.heap d).IsDir = true ∨
            (w.heap s).Size ≠ (w.heap d).Size ∨ (w.heap s).ModTime ≠ (w.heap d).ModTime) :=
      Or.inr (Or.inr ⟨s, d, hsrc, hdest, Or.inr (Or.inr hdiff)⟩)
    have hop := op_without_hash env c w hskip
    have hrun : Change.Op env (some c) w = some (preOp env w c, w) := by
      simp [Change.Op, hforce, hnc, hop]
    rw [h1] at hrun
    cases hrun
    rfl

theorem C20_resolver_agrees_with_classifier_witness :
    (sampleChange (some 6) (some 2) false false).Force = false ∧
    (sampleWorld.heap 6).IsDir = false ∧ (sampleWorld.heap 2).IsDir = false ∧
    (sampleWorld.heap 6).Size ≠ (sampleWorld.heap 9).Size ∧
    (Change.Op sampleEnv (some (sampleChange (some 6) (some 9) false false)) sampleWorld).map
      (fun r => (r.1, r.2.opened, (r.2.heap 6).Md5Checksum)) = some (OpMod, [], "") ∧
    (fileDifferences sampleEnv (some 6) (some 9) sampleWorld).map
      (fun r => (r.1, r.2.opened, (r.2.heap 6).Md5Checksum)) =
        some (DifferNone ||| DifferSize ||| DifferMd5Checksum, ["data"],
          "03030303030303030303030303030303") ∧
    (fileDifferences sampleEnv (some 6) (some 2) sampleWorld).map
      (fun r => (r.1, r.2.opened)) = some (DifferNone ||| DifferMd5Checksum, ["data"]) ∧
    ∃ op w1 mask w2,
      Change.Op sampleEnv (some (sampleChange (some 6) (some 2) false false)) sampleWorld =
        some (op, w1) ∧
      fileDifferences sampleEnv (some 6) (some 2) sampleWorld = some (mask, w2) ∧
      (op = OpNone ↔ mask = DifferNone) ∧
      (op = OpMod ↔ (mask &&& DifferSize ≠ 0 ∨ mask &&& DifferModTime ≠ 0 ∨
        mask &&& DifferMd5Checksum ≠ 0)) ∧
      ((sampleWorld.heap 6).Size ≠ (sampleWorld.heap 2).Size ∨
        (sampleWorld.heap 6).ModTime ≠ (sampleWorld.heap 2).ModTime → w1 = sampleWorld) ∧
      ∃ sum1 wa sum2, md5Checksum sampleEnv (some 6) sampleWorld = some (sum1, wa) ∧
        md5Checksum sampleEnv (some 2) wa = some (sum2, w2) :=
  ⟨rfl, rfl, rfl, by decide, by decide, by decide, by decide,
    C20_resolver_agrees_with_classifier sampleEnv (sampleChange (some 6) (some 2) false false)
      sampleWorld 6 2 rfl rfl rfl rfl rfl rfl⟩

/-! ## Policy flags of the push command -/

theorem pushMounted_flags (cenv : CmdEnv) (cmd : pushCmd) (args : List String)
    (o : Options) (h : pushMounted cenv cmd args = some o) :
    o.Force = false ∧ o.NoClobber = cmd.noClobber := by
  unfold pushMounted at h
  simp only at h
  split at h
  · cases h
  · split at h
    · cases h
    · cases h
      exact ⟨rfl, rfl⟩

/-- C18, at the failing input: `push -m -force -no-clobber a b` hands the engine
options whose `Force` is false although the flag is set, while the same flags
without `-m` hand over `Force` true; `NoClobber` follows its flag on both paths.
In general the unmounted path copies both flags and the mounted path copies
`-no-clobber` and leaves `Force` at its zero value. -/
theorem C18_mounted_push_drops_force :
    (pushCmd.Flags [("m", true), ("force", true), ("no-clobber", true)]).force = true ∧
    (pushCmd.Run sampleCmdEnv
        (pushCmd.Flags [("m", true), ("force", true), ("no-clobber", true)]) ["a", "b"]).map
      (fun o => (o.Force, o.NoClobber)) = some (false, true) ∧
    (pushCmd.Run sampleCmdEnv
        (pushCmd.Flags [("force", true), ("no-clobber", true)]) ["a", "b"]).map
      (fun o => (o.Force, o.NoClobber)) = some (true, true) ∧
    (∀ (cenv : CmdEnv) (cmd : pushCmd) (args : List String) (o : Options),
      pushCmd.Run cenv cmd args = some o →
        o.NoClobber = cmd.noClobber ∧
        (cmd.mountedPush = false → o.Force = cmd.force) ∧
        (cmd.mountedPush = true → o.Force = false)) := by
  refine ⟨by decide, by decide, by decide, ?_⟩
  intro cenv cmd args o h
  by_cases hm : cmd.mountedPush = true
  · have hpm := pushMounted_flags cenv cmd args o (by simpa [pushCmd.Run, hm] using h)
    refine ⟨hpm.2, ?_, fun _ => hpm.1⟩
    intro hf
    rw [hm] at hf
    cases hf
  · have hm' : cmd.mountedPush = false := by simpa using hm
    simp only [pushCmd.Run, hm', Bool.false_eq_true, if_false] at h
    rcases hp : cenv.preprocessArgs args with _ | ⟨sources, path⟩
    · rw [hp] at h; cases h
    · rw [hp] at h
      cases h
      simp [hm']

/-! ## Exchanging the two sides -/

theorem preOp_swapSides (env : Env) (w : World) (c : Change) :
    (preOp env w c = OpAdd → preOp env w (swapSides c) = OpDelete) ∧
      (preOp env w c = OpDelete → preOp env w (swapSides c) = OpAdd) ∧
      (preOp env w c = OpNone → preOp env w (swapSides c) = OpNone) ∧
      (preOp env w c = OpMod → preOp env w (swapSides c) = OpMod) := by
  rcases hs : c.Src with _ | s <;> rcases hd : c.Dest with _ | d
  · simp [preOp, swapSides, hs, hd, OpNone, OpAdd, OpDelete, OpMod]
  · simp [preOp, swapSides, hs, hd, OpNone, OpAdd, OpDelete, OpMod]
  · simp [preOp, swapSides, hs, hd, OpNone, OpAdd, OpDelete, OpMod]
  · by_cases hdir : (w.heap s).IsDir = (w.heap d).IsDir
    · by_cases hsd : (w.heap s).IsDir = true
      · have hdd : (w.heap d).IsDir = true := by rw [← hdir]; exact hsd
        simp [preOp, swapSides, hs, hd, hsd, hdd, OpNone, OpAdd, OpDelete, OpMod]
      · have hsd' : (w.heap s).IsDir = false := by simpa using hsd
        have hdd : (w.heap d).IsDir = false := by rw [← hdir]; exact hsd'
        have hc : preOp env w c =
            if (w.heap s).Size = (w.heap d).Size ∧ (w.heap s).ModTime = (w.heap d).ModTime ∧
              checksumOf env w (some s) = checksumOf env w (some d) then OpNone else OpMod := by
          simp [preOp, hs, hd, hsd', hdd]
        have hsw : preOp env w (swapSides c) =
            if (w.heap d).Size = (w.heap s).Size ∧ (w.heap d).ModTime = (w.heap s).ModTime ∧
              checksumOf env w (some d) = checksumOf env w (some s) then OpNone else OpMod := by
          simp [preOp, swapSides, hs, hd, hsd', hdd]
        by_cases hq : (w.heap s).Size = (w.heap d).Size ∧
            (w.heap s).ModTime = (w.heap d).ModTime ∧
            checksumOf env w (some s) = checksumOf env w (some d)
        · have hq' : (w.heap d).Size = (w.heap s).Size ∧
              (w.heap d).ModTime = (w.heap s).ModTime ∧
              checksumOf env w (some d) = checksumOf env w (some s) :=
            ⟨hq.1.symm, hq.2.1.symm, hq.2.2.symm⟩
          rw [hc, hsw, if_pos hq, if_pos hq']
          decide
        · have hq' : ¬ ((w.heap d).Size = (w.heap s).Size ∧
              (w.heap d).ModTime = (w.heap s).ModTime ∧
              checksumOf env w (some d) = checksumOf env w (some s)) :=
            fun h => hq ⟨h.1.symm, h.2.1.symm, h.2.2.symm⟩
          rw [hc, hsw, if_neg hq, if_neg hq']
          decide
    · have hdir' : ¬ (w.heap d).IsDir = (w.heap s).IsDir := fun h => hdir h.symm
      simp [preOp, swapSides, hs, hd, hdir, hdir', OpNone, OpAdd, OpDelete, OpMod]

/-- C21: with `Force` and `NoClobber` unset, `Change.Op` of a change and of the
same change with `Src` and `Dest` exchanged both return, and the label of the
exchanged change is `OpDelete` where the original gives `OpAdd`, `OpAdd` where
it gives `OpDelete`, and the same label where it gives `OpNone` or `OpMod`; this
holds for the exchanged change run in the same world and run in the world the
original run left. -/
theorem C21_swap_dualises (env : Env) (c : Change) (w : World)
    (hforce : c.Force = false) (hnc : c.NoClobber = false) :
    ∃ op w1 op2 w2 w3, Change.Op env (some c) w = some (op, w1) ∧
      Change.Op env (some (swapSides c)) w = some (op2, w2) ∧
      Change.Op env (some (swapSides c)) w1 = some (op2, w3) ∧
      (op = OpAdd → op2 = OpDelete) ∧ (op = OpDelete → op2 = OpAdd) ∧
      (op = OpNone → op2 = OpNone) ∧ (op = OpMod → op2 = OpMod) := by
  obtain ⟨w1, h1, e1⟩ := Op_spec env c w
  obtain ⟨w2, h2, _⟩ := Op_spec env (swapSides c) w
  obtain ⟨w3, h3, _⟩ := Op_spec env (swapSides c) w1
  rw [opOf_ext e1] at h3
  rw [Op_plain env c w hforce hnc] at h1
  rw [Op_plain env (swapSides c) w hforce hnc] at h2 h3
  exact ⟨_, w1, _, w2, w3, h1, h2, h3, preOp_swapSides env w c⟩

theorem C21_swap_dualises_witness :
    (sampleChange (some 6) none false false).Force = false ∧
    (sampleChange (some 6) none false false).NoClobber = false ∧
    (Change.Op sampleEnv (some (sampleChange (some 6) none false false)) sampleWorld).map
      Prod.fst = some OpAdd ∧
    (Change.Op sampleEnv (some (swapSides (sampleChange (some 6) none false false)))
      sampleWorld).map Prod.fst = some OpDelete ∧
    (Change.Op sampleEnv (some (sampleChange (some 6) (some 2) false false)) sampleWorld).map
      Prod.fst = some OpMod ∧
    (Change.Op sampleEnv (some (swapSides (sampleChange (some 6) (some 2) false false)))
      sampleWorld).map Prod.fst = some OpMod ∧
    ∃ op w1 op2 w2 w3,
      Change.Op sampleEnv (some (sampleChange (some 6) none false false)) sampleWorld =
        some (op, w1) ∧
      Change.Op sampleEnv (some (swapSides (sampleChange (some 6) none false false)))
        sampleWorld = some (op2, w2) ∧
      Change.Op sampleEnv (some (swapSides (sampleChange (some 6) none false false))) w1 =
        some (op2, w3) ∧
      (op = OpAdd → op2 = OpDelete) ∧ (op = OpDelete → op2 = OpAdd) ∧
      (op = OpNone → op2 = OpNone) ∧ (op = OpMod → op2 = OpMod) :=
  ⟨rfl, rfl, by decide, by decide, by decide, by decide,
    C21_swap_dualises sampleEnv (sampleChange (some 6) none false false) sampleWorld rfl rfl⟩

end Drive
